import Mathlib

/-!
Verification of the fund-composition resolver, caches, ratio enrichment,
aggregation engine and visibility scheduler of the zerodha-dashboard
repository, as a shallow embedding in Lean.

Numbers that are JavaScript floats in the source are modelled as exact
rationals; timestamps (millisecond clock readings) as integers.  Network
and DOM/JSON extraction are the boundary of the embedding: each external
provider is represented by the already-extracted data it would yield for
the request, and every code path from that boundary onwards (filters,
guards, fallback iteration, cache reads and writes, merging, aggregation)
is translated statement by statement from the TypeScript source.
-/

namespace ZerodhaDashboard

/-! ## JavaScript truthiness helpers

The source combines optional values with the JavaScript binary operator
that yields the right operand when the left one is falsy.  For strings the
falsy values are the missing value and the empty string; for numbers the
missing value and zero. -/

/-- JS: a or-else b for plain strings (empty string is falsy). -/
def strOr (a b : String) : String :=
  if a = "" then b else a

/-- JS: a or-else b where a is an optional string and the result is a plain string. -/
def optStrOrStr (a : Option String) (b : String) : String :=
  match a with
  | some s => if s = "" then b else s
  | none => b

/-- JS: a or-else b for optional strings. -/
def optStrOr (a b : Option String) : Option String :=
  match a with
  | some s => if s = "" then b else some s
  | none => b

/-- JS: a or-else b for optional numbers (zero is falsy). -/
def optNumOr (a b : Option ℚ) : Option ℚ :=
  match a with
  | some q => if q = 0 then b else some q
  | none => b

/-- JS truthiness of an optional number. -/
def numTruthy (a : Option ℚ) : Bool :=
  match a with
  | some q => q ≠ 0
  | none => false

/-- JS truthiness of an optional string. -/
def strTruthy (a : Option String) : Bool :=
  match a with
  | some s => s ≠ ""
  | none => false

/-- Whether the first list occurs at the head of the second. -/
def leadMatch [DecidableEq α] : List α → List α → Bool
  | [], _ => true
  | _ :: _, [] => false
  | a :: as, b :: bs => a = b && leadMatch as bs

/-- Whether the first list occurs contiguously anywhere in the second. -/
def listInfix [DecidableEq α] (sub : List α) : List α → Bool
  | [] => leadMatch sub []
  | b :: bs => leadMatch sub (b :: bs) || listInfix sub bs

/-- JS String.prototype.includes. -/
def strContains (s sub : String) : Bool :=
  listInfix sub.data s.data

/-- JS String.prototype.toLowerCase (character-wise lower-casing). -/
def strLower (s : String) : String :=
  String.mk (s.data.map Char.toLower)

/-- A whitespace character as far as trimming is concerned. -/
def wsChar (c : Char) : Bool :=
  c = ' ' || c = '\t' || c = '\n' || c = '\r'

/-- JS String.prototype.trim. -/
def strTrim (s : String) : String :=
  String.mk (((s.data.dropWhile wsChar).reverse.dropWhile wsChar).reverse)

/-! ## Data model (src/lib/fund/types.ts) -/

/-- One constituent position inside a fund (TS interface FundHolding). -/
structure FundHolding where
  name : String
  symbol : Option String := none
  sector : Option String := none
  percentage : ℚ
  value : Option ℚ := none
  quantity : Option ℚ := none
  pe : Option ℚ := none
  marketCap : Option String := none
  priceChange : Option ℚ := none
  deriving DecidableEq, Repr

/-- TS interface SectorAllocation. -/
structure SectorAllocation where
  sector : String
  percentage : ℚ
  deriving DecidableEq, Repr

/-- TS interface AssetAllocation. -/
structure AssetAllocation where
  type : String
  percentage : ℚ
  deriving DecidableEq, Repr

/-- TS interface FundPortfolio.  The aum, expenseRatio and metrics fields
are omitted: no scraper, no resolver branch and no claim ever reads or
writes them, so on every modelled code path they would be constantly
absent. -/
structure FundPortfolio where
  fundName : String
  isin : String
  schemeCode : Option String := none
  category : Option String := none
  fundHouse : Option String := none
  nav : Option ℚ := none
  navDate : Option String := none
  holdings : List FundHolding
  sectorAllocation : List SectorAllocation
  assetAllocation : List AssetAllocation
  lastUpdated : String
  source : String
  error : Option String := none
  deriving DecidableEq, Repr

/-! ## Server-side composition cache (src/lib/fund/cache.ts) -/

/-- Cache TTL, 24 hours in milliseconds. -/
def CACHE_TTL : ℤ := 24 * 60 * 60 * 1000

/-- One cache entry: payload plus creation timestamp. -/
structure CacheEntry where
  data : FundPortfolio
  timestamp : ℤ
  deriving DecidableEq, Repr

/-- The in-memory map backing the portfolio cache, with JS Map insertion
order: an association list whose keys are unique by construction. -/
abbrev PortfolioCache := List (String × CacheEntry)

/-- First binding for a key, JS Map.get. -/
def lookupEntry : PortfolioCache → String → Option CacheEntry
  | [], _ => none
  | (k1, e1) :: rest, k => if k1 = k then some e1 else lookupEntry rest k

/-- JS Map.set: replace in place if the key exists, else append. -/
def setKey : PortfolioCache → String → CacheEntry → PortfolioCache
  | [], k, e => [(k, e)]
  | (k1, e1) :: rest, k, e =>
    if k1 = k then (k, e) :: rest else (k1, e1) :: setKey rest k e

/-- JS Map.delete. -/
def removeKey : PortfolioCache → String → PortfolioCache
  | [], _ => []
  | (k1, e1) :: rest, k =>
    if k1 = k then rest else (k1, e1) :: removeKey rest k

/-- getCachedPortfolio from cache.ts: a miss returns nothing; an entry
older than the TTL is deleted and treated as a miss; otherwise the data is
returned.  The second component is the cache after the call. -/
def getCachedPortfolio (cache : PortfolioCache) (now : ℤ) (isin : String) :
    Option FundPortfolio × PortfolioCache :=
  match lookupEntry cache isin with
  | none => (none, cache)
  | some entry =>
    if now - entry.timestamp > CACHE_TTL then (none, removeKey cache isin)
    else (some entry.data, cache)

/-- cachePortfolio from cache.ts. -/
def cachePortfolio (cache : PortfolioCache) (isin : String)
    (data : FundPortfolio) (now : ℤ) : PortfolioCache :=
  setKey cache isin ⟨data, now⟩

/-! ## Registry adapter (src/lib/fund/scrapers/mfapi.ts)

fetchFromMFAPI performs two network calls and, on success, builds a record
whose string fields default to the empty string and whose nav may be
absent.  The network is the boundary: the model takes the record the call
would produce, or nothing when any step failed. -/

/-- The partial FundPortfolio built by fetchFromMFAPI on success. -/
structure MFAPIInfo where
  fundName : String
  schemeCode : String
  category : String
  fundHouse : String
  nav : Option ℚ
  navDate : String
  deriving DecidableEq, Repr

/-! ## Source adapters (src/lib/fund/scrapers/)

Each adapter searches its provider, fetches a detail page and extracts
rows; any failure yields nothing.  The extraction (HTTP, cheerio/JSON
traversal, field-name coalescing) is the boundary: each adapter model
takes the extracted rows, then applies the filtering, the non-empty guard
and the final construction exactly as written in its source file. -/

/-- Groww after JSON extraction: the coalesced optional metadata fields
and the mapped holding and sector rows, before the positive-percentage
filters. -/
structure GrowwData where
  schemeName : Option String
  dataIsin : Option String
  category : Option String
  fundHouse : Option String
  nav : Option ℚ
  rawHoldings : List FundHolding
  rawSectors : List SectorAllocation
  deriving DecidableEq, Repr

/-- scrapeGroww from groww.ts. -/
def scrapeGroww (d : Option GrowwData) (isin fundName nowStr : String) :
    Option FundPortfolio :=
  match d with
  | none => none
  | some d =>
    let holdings := d.rawHoldings.filter (fun h => h.percentage > 0)
    let sectors := d.rawSectors.filter (fun s => s.percentage > 0)
    if holdings ≠ [] then
      some { fundName := optStrOrStr d.schemeName fundName
             isin := optStrOrStr d.dataIsin isin
             category := d.category
             fundHouse := d.fundHouse
             nav := d.nav
             holdings := holdings
             sectorAllocation := sectors
             assetAllocation := []
             lastUpdated := nowStr
             source := "Groww" }
    else none

/-- Tickertape after JSON extraction. -/
structure TickertapeData where
  fundOptName : Option String
  rawHoldings : List FundHolding
  deriving DecidableEq, Repr

/-- scrapeTickertape from tickertape.ts. -/
def scrapeTickertape (d : Option TickertapeData) (isin fundName nowStr : String) :
    Option FundPortfolio :=
  match d with
  | none => none
  | some d =>
    let holdings := d.rawHoldings.filter (fun h => h.percentage > 0)
    if holdings ≠ [] then
      some { fundName := optStrOrStr d.fundOptName fundName
             isin := isin
             holdings := holdings
             sectorAllocation := []
             assetAllocation := []
             lastUpdated := nowStr
             source := "Tickertape" }
    else none

/-- Moneycontrol after HTML extraction: the scheme name from the search
result and the (name, percentage) cells of the first table selector that
matched, plus the sector rows. -/
structure MoneycontrolData where
  schemeName : Option String
  rows : List (String × ℚ)
  sectorRows : List (String × ℚ)
  deriving DecidableEq, Repr

/-- scrapeMoneycontrol from moneycontrol.ts: a row is kept when its name
is non-empty, its percentage positive and its lower-cased name does not
contain the word total. -/
def scrapeMoneycontrol (d : Option MoneycontrolData) (isin fundName nowStr : String) :
    Option FundPortfolio :=
  match d with
  | none => none
  | some d =>
    let holdings := (d.rows.filter
        (fun r => r.1 ≠ "" ∧ r.2 > 0 ∧ ¬ strContains (strLower r.1) "total")).map
      (fun r => ({ name := r.1, percentage := r.2 } : FundHolding))
    let sectors := (d.sectorRows.filter (fun r => r.1 ≠ "" ∧ r.2 > 0)).map
      (fun r => ({ sector := r.1, percentage := r.2 } : SectorAllocation))
    if holdings ≠ [] then
      some { fundName := optStrOrStr d.schemeName fundName
             isin := isin
             holdings := holdings
             sectorAllocation := sectors
             assetAllocation := []
             lastUpdated := nowStr
             source := "Moneycontrol" }
    else none

/-- Value Research after HTML extraction. -/
structure ValueResearchData where
  fundOptName : Option String
  rows : List (String × ℚ)
  deriving DecidableEq, Repr

/-- scrapeValueResearch from valueResearch.ts: a row is kept when its
name is non-empty and not the literal Total and its percentage positive. -/
def scrapeValueResearch (d : Option ValueResearchData) (isin fundName nowStr : String) :
    Option FundPortfolio :=
  match d with
  | none => none
  | some d =>
    let holdings := (d.rows.filter
        (fun r => r.1 ≠ "" ∧ r.2 > 0 ∧ r.1 ≠ "Total")).map
      (fun r => ({ name := r.1, percentage := r.2 } : FundHolding))
    if holdings ≠ [] then
      some { fundName := optStrOrStr d.fundOptName fundName
             isin := isin
             holdings := holdings
             sectorAllocation := []
             assetAllocation := []
             lastUpdated := nowStr
             source := "Value Research" }
    else none

/-- ET Money after JSON extraction. -/
structure ETMoneyData where
  fundOptName : Option String
  rawHoldings : List FundHolding
  deriving DecidableEq, Repr

/-- scrapeETMoney from etmoney.ts. -/
def scrapeETMoney (d : Option ETMoneyData) (isin fundName nowStr : String) :
    Option FundPortfolio :=
  match d with
  | none => none
  | some d =>
    let holdings := d.rawHoldings.filter (fun h => h.percentage > 0)
    if holdings ≠ [] then
      some { fundName := optStrOrStr d.fundOptName fundName
             isin := isin
             holdings := holdings
             sectorAllocation := []
             assetAllocation := []
             lastUpdated := nowStr
             source := "ET Money" }
    else none

/-- The data every provider would yield for one resolution request. -/
structure ScraperWorlds where
  groww : Option GrowwData
  tickertape : Option TickertapeData
  moneycontrol : Option MoneycontrolData
  valueResearch : Option ValueResearchData
  etmoney : Option ETMoneyData

/-- One registered source adapter: its declared name and its resolution
function. -/
structure Scraper where
  name : String
  fn : ScraperWorlds → String → String → String → Option FundPortfolio

/-- The SCRAPERS list from src/lib/fund/index.ts, in declared priority
order. -/
def SCRAPERS : List Scraper :=
  [ ⟨"Groww", fun w isin name nowStr => scrapeGroww w.groww isin name nowStr⟩,
    ⟨"Tickertape", fun w isin name nowStr => scrapeTickertape w.tickertape isin name nowStr⟩,
    ⟨"Moneycontrol", fun w isin name nowStr => scrapeMoneycontrol w.moneycontrol isin name nowStr⟩,
    ⟨"ValueResearch", fun w isin name nowStr => scrapeValueResearch w.valueResearch isin name nowStr⟩,
    ⟨"ETMoney", fun w isin name nowStr => scrapeETMoney w.etmoney isin name nowStr⟩ ]

/-- The fallback loop of fetchFundPortfolio: try each scraper in order,
treating a thrown error like an absent result, and stop at the first
result with at least one holding.  Also returns how many scrapers were
invoked. -/
def runScrapers (ss : List Scraper) (w : ScraperWorlds)
    (isin fundName nowStr : String) : Option FundPortfolio × ℕ :=
  match ss with
  | [] => (none, 0)
  | s :: rest =>
    match s.fn w isin fundName nowStr with
    | some p =>
      if p.holdings ≠ [] then (some p, 1)
      else
        let r := runScrapers rest w isin fundName nowStr
        (r.1, r.2 + 1)
    | none =>
      let r := runScrapers rest w isin fundName nowStr
      (r.1, r.2 + 1)

/-- The value returned by one call to fetchFundPortfolio together with
the cache it leaves behind and the outbound work it performed. -/
structure FetchResult where
  portfolio : FundPortfolio
  cache : PortfolioCache
  registryCalled : Bool
  adaptersTried : ℕ

/-- The overlay performed on the winning portfolio: the registry value of
each field wins over the provider value under JS or-else semantics; the
fundHouse and navDate come solely from the registry. -/
def overlayRegistry (mfapiData : Option MFAPIInfo) (fundName : String)
    (portfolio : FundPortfolio) : FundPortfolio :=
  { portfolio with
    fundName := strOr (optStrOrStr (mfapiData.map MFAPIInfo.fundName) "")
      (strOr portfolio.fundName fundName)
    category := optStrOr (mfapiData.map MFAPIInfo.category) portfolio.category
    fundHouse := mfapiData.map MFAPIInfo.fundHouse
    nav := optNumOr (mfapiData.bind MFAPIInfo.nav) portfolio.nav
    navDate := mfapiData.map MFAPIInfo.navDate }

/-- The empty portfolio returned when every scraper failed. -/
def emptyResult (mfapiData : Option MFAPIInfo)
    (isin fundName nowStr : String) : FundPortfolio :=
  { fundName := strOr (optStrOrStr (mfapiData.map MFAPIInfo.fundName) "") fundName
    isin := isin
    category := mfapiData.map MFAPIInfo.category
    fundHouse := mfapiData.map MFAPIInfo.fundHouse
    nav := mfapiData.bind MFAPIInfo.nav
    navDate := mfapiData.map MFAPIInfo.navDate
    holdings := []
    sectorAllocation := []
    assetAllocation := []
    lastUpdated := nowStr
    source := "No data available"
    error := some "Failed to fetch holdings from all sources" }

/-- fetchFundPortfolio from src/lib/fund/index.ts.  On a cache hit the
cached portfolio is returned with no outbound call.  Otherwise the
registry (MFAPI) is queried, the scrapers are tried in order, and the
winning portfolio is overlaid with the registry metadata and cached; if
every scraper failed an empty portfolio with a fixed error string and
sentinel source is returned and nothing is written.  The function is
total: it returns a portfolio on every input. -/
def fetchFundPortfolio (cache : PortfolioCache) (now : ℤ) (nowStr : String)
    (mfapiData : Option MFAPIInfo) (w : ScraperWorlds)
    (isin fundName : String) : FetchResult :=
  let g := getCachedPortfolio cache now isin
  match g.1 with
  | some cached => ⟨cached, g.2, false, 0⟩
  | none =>
    let run := runScrapers SCRAPERS w isin fundName nowStr
    match run.1 with
    | some portfolio =>
      let result := overlayRegistry mfapiData fundName portfolio
      ⟨result, cachePortfolio g.2 isin result now, true, run.2⟩
    | none =>
      ⟨emptyResult mfapiData isin fundName nowStr, g.2, true, run.2⟩

/-! ## Ratio (P/E) enrichment (src/lib/fund/peEnricher.ts, utils.ts) -/

/-- The debt keyword list from utils.ts. -/
def debtKeywords : List String :=
  ["government", "g-sec", "gsec", "treasury", "t-bill", "ncd",
   "debenture", "bond", "cp", "cd", "certificate", "deposit",
   "repo", "cblo", "%", "sovereign"]

/-- isDebtInstrument from utils.ts: the lower-cased name contains one of
the debt keywords. -/
def isDebtInstrument (name : String) : Bool :=
  debtKeywords.any (fun keyword => strContains (strLower name) keyword)

/-- Best-effort ratio data for one stock (the return shape of
fetchStockPE). -/
structure PEData where
  pe : Option ℚ := none
  marketCap : Option String := none
  symbol : Option String := none
  deriving DecidableEq, Repr

/-- What the two ratio providers would yield for each stock name.
screener is the outcome of fetchPEFromScreener (via its internal cache or
the network); nse the outcome of searchNSESymbol. -/
structure PEWorld where
  screener : String → Option PEData
  nse : String → Option String

/-- fetchStockPE from peEnricher.ts: take the screener result when it
carries a truthy ratio, otherwise fall back to the NSE symbol search
(symbol only), otherwise return the empty record. -/
def fetchStockPE (w : PEWorld) (stockName : String) : PEData :=
  match w.screener stockName with
  | some d =>
    if numTruthy d.pe then d
    else
      match w.nse stockName with
      | some s => { symbol := some s }
      | none => {}
  | none =>
    match w.nse stockName with
    | some s => { symbol := some s }
    | none => {}

/-- The per-holding body of the enrichment loop: a debt instrument is
returned unchanged; otherwise the fetched fields overlay the existing
ones with JS or-else semantics. -/
def enrichOne (w : PEWorld) (holding : FundHolding) : FundHolding :=
  if isDebtInstrument holding.name then holding
  else
    let peData := fetchStockPE w holding.name
    { holding with
      symbol := optStrOr peData.symbol holding.symbol
      pe := optNumOr peData.pe holding.pe
      marketCap := optStrOr peData.marketCap holding.marketCap }

/-- The chunked loop of enrichHoldingsWithPE: slices of five holdings are
processed (concurrently in the source, with a pacing delay between
slices).  The second component lists the names sent to the ratio
providers, in order. -/
def enrichLoop (w : PEWorld) (holdings : List FundHolding) :
    List FundHolding × List String :=
  match holdings with
  | [] => ([], [])
  | h :: rest =>
    let batch := (h :: rest).take 5
    let tail := enrichLoop w ((h :: rest).drop 5)
    (batch.map (enrichOne w) ++ tail.1,
     (batch.filter (fun x => ¬ isDebtInstrument x.name)).map FundHolding.name
       ++ tail.2)
  termination_by holdings.length
  decreasing_by
    simp only [List.drop_succ_cons, List.length_cons, List.length_drop]
    omega

/-- enrichHoldingsWithPE from peEnricher.ts. -/
def enrichHoldingsWithPE (w : PEWorld) (holdings : List FundHolding) :
    List FundHolding × List String :=
  enrichLoop w holdings

/-! ## Server-side ratio cache (src/lib/fund/peCache.ts) -/

/-- Entry of the server-side ratio cache. -/
structure PECacheEntry where
  data : PEData
  timestamp : ℤ
  deriving DecidableEq, Repr

/-- The in-memory map backing the ratio cache, keyed by lower-cased
trimmed stock name. -/
abbrev PECache := List (String × PECacheEntry)

/-- First binding for a key. -/
def lookupPE : PECache → String → Option PECacheEntry
  | [], _ => none
  | (k1, e1) :: rest, k => if k1 = k then some e1 else lookupPE rest k

/-- getCachedPE from peCache.ts: the key is the lower-cased trimmed name;
an entry older than 24 hours is treated as a miss (and deleted in the
source; the deletion is not observed by any claim and the cache value
after the call is not modelled for the concurrent batch route). -/
def getCachedPE (cache : PECache) (now : ℤ) (stockName : String) : Option PEData :=
  match lookupPE cache (strTrim (strLower stockName)) with
  | none => none
  | some entry =>
    if now - entry.timestamp > CACHE_TTL then none else some entry.data

/-! ## Batch ratio endpoint (src/app/api/mf/pe/batch/route.ts) -/

/-- One element of the results array of the batch endpoint response. -/
structure PEResult where
  name : String
  pe : Option ℚ := none
  marketCap : Option String := none
  symbol : Option String := none
  deriving DecidableEq, Repr

/-- The per-name body of the batch endpoint: answer from the server-side
ratio cache when possible, otherwise call fetchStockPE (the write-back of
the fetched data happens after the read and is not observed within the
call). -/
def processStock (cache : PECache) (now : ℤ) (w : PEWorld)
    (stockName : String) : PEResult :=
  match getCachedPE cache now stockName with
  | some cached =>
    { name := stockName, pe := cached.pe, marketCap := cached.marketCap,
      symbol := cached.symbol }
  | none =>
    let peData := fetchStockPE w stockName
    { name := stockName, pe := peData.pe, marketCap := peData.marketCap,
      symbol := peData.symbol }

/-- POST of the batch ratio endpoint: truncate the submitted names to the
first ten, process each against the cache snapshot (all lookups run
concurrently in the source), and return one result per processed name.
The second component lists the names for which the provider was invoked
(the cache misses among the processed names). -/
def peBatchPOST (cache : PECache) (now : ℤ) (w : PEWorld)
    (stocks : List String) : List PEResult × List String :=
  let batch := stocks.take 10
  (batch.map (processStock cache now w),
   batch.filter (fun n => (getCachedPE cache now n).isNone))

/-! ## Aggregation endpoint (src/app/api/portfolio/top-holdings route,
POST handler) -/

/-- One mutual-fund holding row of the request body. -/
structure MFRow where
  tradingsymbol : String
  fund : String
  last_price : ℚ
  quantity : ℚ
  deriving DecidableEq, Repr

/-- Current value of one row. -/
def rowValue (r : MFRow) : ℚ := r.last_price * r.quantity

/-- One consolidated fund (folios sharing a fund name merged). -/
structure ConsolidatedFund where
  tradingsymbol : String
  fund : String
  totalValue : ℚ
  deriving DecidableEq, Repr

/-- One step of the consolidation loop: a row whose fund name is already
present adds its value to the existing entry; otherwise a new entry is
appended carrying the row's tradingsymbol. -/
def addRow : List ConsolidatedFund → MFRow → List ConsolidatedFund
  | [], r => [⟨r.tradingsymbol, r.fund, rowValue r⟩]
  | c :: rest, r =>
    if c.fund = r.fund then
      { c with totalValue := c.totalValue + rowValue r } :: rest
    else c :: addRow rest r

/-- The consolidation of the request rows, in first-occurrence order. -/
def consolidate (rows : List MFRow) : List ConsolidatedFund :=
  rows.foldl addRow []

/-- Total portfolio value: sum of last_price times quantity over all
request rows. -/
def totalPortfolioValue (rows : List MFRow) : ℚ :=
  rows.foldl (fun t r => t + rowValue r) 0

/-- Per-holding contribution entry of an aggregated constituent. -/
structure FundContribution where
  name : String
  percentage : ℚ
  value : ℚ
  deriving DecidableEq, Repr

/-- TS interface AggregatedHolding. -/
structure AggregatedHolding where
  name : String
  symbol : Option String := none
  totalValue : ℚ
  totalPercentage : ℚ
  funds : List FundContribution
  pe : Option ℚ := none
  marketCap : Option String := none
  sector : Option String := none
  deriving DecidableEq, Repr

/-- The deduplication key: lower-cased then trimmed constituent name. -/
def dedupKey (name : String) : String := strTrim (strLower name)

/-- Add a contribution to the funds array: if the fund already
contributed, add to its existing entry; otherwise push a new entry. -/
def addFundContribution : List FundContribution → String → ℚ → ℚ →
    List FundContribution
  | [], fund, p, v => [⟨fund, p, v⟩]
  | fc :: rest, fund, p, v =>
    if fc.name = fund then
      { fc with percentage := fc.percentage + p, value := fc.value + v } :: rest
    else fc :: addFundContribution rest fund p v

/-- Merge one constituent into an existing aggregated record: sum value
and portfolio-wide percentage, merge the fund contribution, and fill
pe, marketCap, sector and symbol only when currently falsy. -/
def mergeInto (fund : String) (h : FundHolding) (hv hpp : ℚ)
    (a : AggregatedHolding) : AggregatedHolding :=
  { a with
    totalValue := a.totalValue + hv
    totalPercentage := a.totalPercentage + hpp
    funds := addFundContribution a.funds fund h.percentage hv
    pe := if ¬ numTruthy a.pe ∧ numTruthy h.pe then h.pe else a.pe
    marketCap := if ¬ strTruthy a.marketCap ∧ strTruthy h.marketCap then h.marketCap
      else a.marketCap
    sector := if ¬ strTruthy a.sector ∧ strTruthy h.sector then h.sector else a.sector
    symbol := if ¬ strTruthy a.symbol ∧ strTruthy h.symbol then h.symbol else a.symbol }

/-- The fresh aggregated record for a constituent seen for the first
time. -/
def freshRecord (fund : String) (h : FundHolding) (hv hpp : ℚ) :
    AggregatedHolding :=
  { name := h.name, symbol := h.symbol, totalValue := hv,
    totalPercentage := hpp, funds := [⟨fund, h.percentage, hv⟩],
    pe := h.pe, marketCap := h.marketCap, sector := h.sector }

/-- The aggregation map: dedup key to record, in insertion order. -/
abbrev AggMap := List (String × AggregatedHolding)

/-- First binding for a key. -/
def lookupAgg : AggMap → String → Option AggregatedHolding
  | [], _ => none
  | (k1, a1) :: rest, k => if k1 = k then some a1 else lookupAgg rest k

/-- Update the first binding of a present key in place. -/
def updateAgg (f : AggregatedHolding → AggregatedHolding) :
    AggMap → String → AggMap
  | [], _ => []
  | (k1, a1) :: rest, k =>
    if k1 = k then (k1, f a1) :: rest else (k1, a1) :: updateAgg f rest k

/-- The inner loop body: merge one constituent of one fund into the
map. -/
def aggStep (fund : String) (fundValue fundWeight : ℚ)
    (m : AggMap) (h : FundHolding) : AggMap :=
  let hv := h.percentage / 100 * fundValue
  let hpp := h.percentage / 100 * fundWeight
  let key := dedupKey h.name
  match lookupAgg m key with
  | some _ => updateAgg (mergeInto fund h hv hpp) m key
  | none => m ++ [(key, freshRecord fund h hv hpp)]

/-- The outer loop body: resolve one consolidated fund and merge its
constituents; a resolution failure or an empty composition leaves the map
unchanged. -/
def processFund (resolve : String → String → Option FundPortfolio)
    (total : ℚ) (m : AggMap) (c : ConsolidatedFund) : AggMap :=
  let fundWeight := if total > 0 then c.totalValue / total * 100 else 0
  match resolve c.tradingsymbol c.fund with
  | none => m
  | some portfolio =>
    if portfolio.holdings ≠ [] then
      portfolio.holdings.foldl (aggStep c.fund c.totalValue fundWeight) m
    else m

/-- Stable insertion for the final descending sort by portfolio-wide
percentage. -/
def insertDesc (x : AggregatedHolding) : List AggregatedHolding →
    List AggregatedHolding
  | [] => [x]
  | y :: ys =>
    if y.totalPercentage < x.totalPercentage then x :: y :: ys
    else y :: insertDesc x ys

/-- Descending sort by portfolio-wide percentage. -/
def sortDesc (l : List AggregatedHolding) : List AggregatedHolding :=
  l.foldr insertDesc []

/-- The response of the aggregation endpoint, plus the resolution calls
it made ((identifier, display name) pairs, in order). -/
structure AggResult where
  holdings : List AggregatedHolding
  totalHoldings : ℕ
  totalPortfolioValue : ℚ
  totalFunds : ℕ
  resolveCalls : List (String × String)

/-- The POST handler of the top-holdings aggregation route: consolidate
rows by fund name, resolve each consolidated fund under its stored
tradingsymbol, merge all constituents by dedup key, and sort descending
by portfolio-wide percentage. -/
def topHoldingsPOST (resolve : String → String → Option FundPortfolio)
    (rows : List MFRow) : AggResult :=
  let total := totalPortfolioValue rows
  let uniqueFunds := consolidate rows
  let m := uniqueFunds.foldl (processFund resolve total) []
  let allHoldings := sortDesc (m.map Prod.snd)
  ⟨allHoldings, allHoldings.length, total, uniqueFunds.length,
   uniqueFunds.map (fun c => (c.tradingsymbol, c.fund))⟩

/-! ## Visibility scheduler (components/FundDetailModal, processBatch and
handleHoldingVisible)

The scheduler is single-threaded and cooperative: every state transition
runs on one logical thread, so it is modelled as a transition system.  The
events are the points where control re-enters the scheduler: a row
becoming visible, the debounce or follow-up timer firing (both run
processBatch), and the in-flight batch call completing (the code after
await, run at most once per issued call).  The merge of returned ratios
into the holdings by name is abstracted to an arbitrary new ratio
predicate, a superset of the concrete behaviour that is sound for the
safety properties proved here. -/

/-- The mutable refs and state of the holding-detail view. -/
structure SchedState where
  pending : List ℕ
  fetched : List ℕ
  loading : List ℕ
  inflight : List ℕ
  isFetching : Bool
  outstanding : ℕ
  enabled : Bool
  nHoldings : ℕ
  hasPE : ℕ → Bool

/-- Add an index to a set-like list. -/
def addIdx (i : ℕ) (l : List ℕ) : List ℕ :=
  if i ∈ l then l else i :: l

/-- Union of set-like lists. -/
def addAll (l extra : List ℕ) : List ℕ :=
  extra.foldl (fun acc i => addIdx i acc) l

/-- Remove the given indices. -/
def removeAll (l remove : List ℕ) : List ℕ :=
  l.filter (fun i => i ∉ remove)

/-- The events that re-enter the scheduler. -/
inductive SchedEv where
  | visible (i : ℕ)
  | enable
  | fire
  | completeOk (newPE : ℕ → Bool)
  | completeErr

/-- One transition of the scheduler; the boolean is true exactly when the
transition issues a batch network call.

visible: handleHoldingVisible — ignore when ratio loading is disabled,
the index was already requested, or the holding already has a ratio; else
add to the pending set (and reset the debounce timer).

enable: enablePELoading — clear the tracking sets and enable.

fire: processBatch — do nothing while a call is in flight; else take up
to ten pending indices not yet fetched or loading; those whose holding
exists and lacks a ratio become the batch: mark them fetched and loading,
remove them from pending, and issue the call; if no holding needs data,
only mark the taken indices fetched.

completeOk / completeErr: the code after the await — clear the loading
state of the in-flight batch, drop the in-flight flag, and on failure
remove the batch from the fetched set so it can be retried; on success
the returned data is merged into the holdings. -/
def stepSched (s : SchedState) : SchedEv → SchedState × Bool
  | .visible i =>
    if ¬ s.enabled ∨ i ∈ s.fetched ∨ (i < s.nHoldings ∧ s.hasPE i) then (s, false)
    else ({ s with pending := addIdx i s.pending }, false)
  | .enable => ({ s with pending := [], fetched := [], enabled := true }, false)
  | .fire =>
    if s.isFetching then (s, false)
    else
      let indicesToFetch :=
        (s.pending.filter (fun i => i ∉ s.fetched ∧ i ∉ s.loading)).take 10
      if indicesToFetch = [] then (s, false)
      else
        let stocks := indicesToFetch.filter
          (fun i => i < s.nHoldings ∧ ¬ s.hasPE i)
        if stocks = [] then
          ({ s with fetched := addAll s.fetched indicesToFetch }, false)
        else
          ({ s with
             pending := removeAll s.pending indicesToFetch
             fetched := addAll s.fetched indicesToFetch
             loading := addAll s.loading indicesToFetch
             inflight := indicesToFetch
             isFetching := true
             outstanding := s.outstanding + 1 }, true)
  | .completeOk newPE =>
    if s.outstanding = 0 then (s, false)
    else
      ({ s with
         hasPE := newPE
         loading := removeAll s.loading s.inflight
         inflight := []
         isFetching := false
         outstanding := s.outstanding - 1 }, false)
  | .completeErr =>
    if s.outstanding = 0 then (s, false)
    else
      ({ s with
         fetched := removeAll s.fetched s.inflight
         loading := removeAll s.loading s.inflight
         inflight := []
         isFetching := false
         outstanding := s.outstanding - 1 }, false)

/-- The states the view can be in: the initial state (empty sets, nothing
in flight) and everything one transition away from a reachable state. -/
inductive SchedReachable : SchedState → Prop where
  | init : ∀ (enabled : Bool) (n : ℕ) (hasPE : ℕ → Bool),
      SchedReachable ⟨[], [], [], [], false, 0, enabled, n, hasPE⟩
  | step : ∀ {s : SchedState} (ev : SchedEv),
      SchedReachable s → SchedReachable (stepSched s ev).1

/-! ## Concrete fixtures used by witnesses and counterexamples -/

/-- A world in which every provider yields nothing. -/
def emptyWorlds : ScraperWorlds := ⟨none, none, none, none, none⟩

/-- A single ten-percent constituent. -/
def stockA : FundHolding := { name := "Stock A", percentage := 10 }

/-- A world in which only the ET Money provider has data. -/
def etWorld : ScraperWorlds :=
  ⟨none, none, none, none, some ⟨none, [stockA]⟩⟩

/-- A world in which only the Groww provider has data, with provider
metadata set. -/
def growwWorld : ScraperWorlds :=
  ⟨some ⟨some "Prov Fund", none, some "Prov Cat", some "Prov House", some 20,
     [stockA], []⟩, none, none, none, none⟩

/-- A registry record with every field supplied. -/
def mfapiReg : MFAPIInfo :=
  ⟨"Reg Fund", "123", "Reg Cat", "Reg House", some 10, "2024-01-01"⟩

/-- The portfolio the Groww adapter yields for growwWorld. -/
def pGroww : FundPortfolio :=
  { fundName := "Prov Fund", isin := "I1", category := some "Prov Cat",
    fundHouse := some "Prov House", nav := some 20, holdings := [stockA],
    sectorAllocation := [], assetAllocation := [],
    lastUpdated := "t1", source := "Groww" }

/-- A minimal cached portfolio. -/
def pf0 : FundPortfolio :=
  { fundName := "F", isin := "I1", holdings := [stockA],
    sectorAllocation := [], assetAllocation := [],
    lastUpdated := "t0", source := "Groww" }

/-- A cache holding pf0 for key I1, written at time zero. -/
def cache0 : PortfolioCache := [("I1", ⟨pf0, 0⟩)]

/-- A ratio world in which both providers fail for every name. -/
def wNone : PEWorld := ⟨fun _ => none, fun _ => none⟩

/-- A single fund row worth one hundred thousand. -/
def rows6 : List MFRow := [⟨"T1", "F", 100, 1000⟩]

/-- A composition with a single forty-percent constituent. -/
def pf6 : FundPortfolio :=
  { fundName := "F", isin := "T1",
    holdings := [{ name := "A", percentage := 40 }],
    sectorAllocation := [], assetAllocation := [],
    lastUpdated := "t", source := "Groww" }

/-- A resolver succeeding only for identifier T1. -/
def resolve6 : String → String → Option FundPortfolio :=
  fun s _ => if s = "T1" then some pf6 else none

/-- An adapter outcome that does not stop the fallback loop: either
nothing (thrown or null) or a portfolio without holdings. -/
def noSuccess (o : Option FundPortfolio) : Bool :=
  match o with
  | none => true
  | some p => p.holdings.isEmpty

/-- What the adapter at a given position of the list would return for a
request. -/
def scraperOutcome (ss : List Scraper) (w : ScraperWorlds)
    (isin fundName nowStr : String) (i : ℕ) : Option FundPortfolio :=
  match ss[i]? with
  | some s => s.fn w isin fundName nowStr
  | none => none

/-- The source labels the five adapters stamp on their results, in
priority order. -/
def sourceStamps : List String :=
  ["Groww", "Tickertape", "Moneycontrol", "Value Research", "ET Money"]

/-- The portfolio the ET Money adapter yields for etWorld. -/
def pET : FundPortfolio :=
  { fundName := "F", isin := "I1", holdings := [stockA],
    sectorAllocation := [], assetAllocation := [],
    lastUpdated := "t1", source := "ET Money" }

/-- Sum of the portfolio-wide percentages over an aggregation map. -/
def sumTP (m : AggMap) : ℚ :=
  (m.map (fun kv => kv.2.totalPercentage)).sum

/-- First consolidated entry for a fund name. -/
def findC : List ConsolidatedFund → String → Option ConsolidatedFund
  | [], _ => none
  | c :: rest, f => if c.fund = f then some c else findC rest f

/-- Sum of the values of the rows of one fund. -/
def sumFundValue (rows : List MFRow) (f : String) : ℚ :=
  ((rows.filter (fun r => r.fund = f)).map rowValue).sum

/-- The single-flight invariant of the scheduler: a call is outstanding
exactly when the in-flight flag is set. -/
def schedInv (s : SchedState) : Prop :=
  s.outstanding = if s.isFetching then 1 else 0

/-- Two folios of fund F1 and one of fund F2. -/
def rowA : MFRow := ⟨"TA", "F1", 100, 10⟩

/-- A holding row of a second fund. -/
def rowB : MFRow := ⟨"TB", "F2", 200, 15⟩

/-- A constituent with surrounding spaces in its name. -/
def hAcme1 : FundHolding := { name := " Acme Ltd", percentage := 40 }

/-- The same constituent under a different case and trailing space. -/
def hAcme2 : FundHolding := { name := "ACME LTD ", percentage := 20 }

/-- F1 resolved composition. -/
def pAcme1 : FundPortfolio :=
  { fundName := "F1", isin := "TA", holdings := [hAcme1],
    sectorAllocation := [], assetAllocation := [],
    lastUpdated := "t", source := "Groww" }

/-- F2 resolved composition. -/
def pAcme2 : FundPortfolio :=
  { fundName := "F2", isin := "TB", holdings := [hAcme2],
    sectorAllocation := [], assetAllocation := [],
    lastUpdated := "t", source := "Groww" }

/-- A composition holding the Acme constituent twice. -/
def pAcmeTwice : FundPortfolio :=
  { fundName := "F1", isin := "TA", holdings := [hAcme1, hAcme2],
    sectorAllocation := [], assetAllocation := [],
    lastUpdated := "t", source := "Groww" }

/-- Resolver for the two Acme funds. -/
def resolveAcme : String → String → Option FundPortfolio :=
  fun s _ => if s = "TA" then some pAcme1 else if s = "TB" then some pAcme2 else none

/-- Resolver yielding the duplicate-row composition for TA. -/
def resolveAcmeTwice : String → String → Option FundPortfolio :=
  fun s _ => if s = "TA" then some pAcmeTwice else none

/-- A composition whose constituent weights sum to one hundred. -/
def pf100 : FundPortfolio :=
  { fundName := "F", isin := "T1",
    holdings := [{ name := "A", percentage := 40 }, { name := "B", percentage := 60 }],
    sectorAllocation := [], assetAllocation := [],
    lastUpdated := "t", source := "Groww" }

/-- A 100k holding of fund F next to a 300k holding of fund G. -/
def rowsW : List MFRow := [⟨"T1", "F", 100, 1000⟩, ⟨"T2", "G", 300, 1000⟩]

/-- Resolver succeeding only for T1, with full constituent coverage. -/
def resolveW : String → String → Option FundPortfolio :=
  fun s _ => if s = "T1" then some pf100 else none

/-- Three rows, two of them folios of the same fund F. -/
def rows10 : List MFRow :=
  [⟨"TS1", "F", 10, 2⟩, ⟨"TS2", "F", 5, 4⟩, ⟨"TS3", "G", 7, 1⟩]

/-- A government-security constituent matching the fixed-income
heuristic. -/
def goiHolding : FundHolding := { name := "7.26% GOI 2033", percentage := 5 }

/-! ## Cache lemmas -/

theorem lookupEntry_setKey_self (c : PortfolioCache) (k : String) (e : CacheEntry) :
    lookupEntry (setKey c k e) k = some e := by
  induction c with
  | nil => simp [setKey, lookupEntry]
  | cons kv rest ih =>
    obtain ⟨k1, e1⟩ := kv
    by_cases h : k1 = k
    · simp [setKey, h, lookupEntry]
    · simp [setKey, h, lookupEntry, ih]

theorem lookupEntry_eq_none_of_not_mem (c : PortfolioCache) (k : String)
    (h : k ∉ c.map Prod.fst) : lookupEntry c k = none := by
  induction c with
  | nil => rfl
  | cons kv rest ih =>
    obtain ⟨k1, e1⟩ := kv
    simp only [List.map_cons, List.mem_cons, not_or] at h
    have h1 : ¬ k1 = k := fun hh => h.1 hh.symm
    simp [lookupEntry, h1, ih h.2]

theorem lookupEntry_removeKey_self (c : PortfolioCache) (k : String)
    (hnd : (c.map Prod.fst).Nodup) : lookupEntry (removeKey c k) k = none := by
  induction c with
  | nil => rfl
  | cons kv rest ih =>
    obtain ⟨k1, e1⟩ := kv
    simp only [List.map_cons, List.nodup_cons] at hnd
    by_cases h : k1 = k
    · subst h
      simp only [removeKey, if_pos rfl]
      exact lookupEntry_eq_none_of_not_mem rest k1 hnd.1
    · simp [removeKey, h, lookupEntry, ih hnd.2]

/-- Reduction of fetchFundPortfolio on a cache hit. -/
theorem fetchFundPortfolio_hit (cache : PortfolioCache) (now : ℤ)
    (nowStr : String) (mfapiData : Option MFAPIInfo) (w : ScraperWorlds)
    (isin fundName : String) (p : FundPortfolio)
    (hhit : (getCachedPortfolio cache now isin).1 = some p) :
    fetchFundPortfolio cache now nowStr mfapiData w isin fundName
      = ⟨p, (getCachedPortfolio cache now isin).2, false, 0⟩ := by
  simp only [fetchFundPortfolio]
  rw [hhit]

/-- Reduction of fetchFundPortfolio when the cache misses and a scraper
wins. -/
theorem fetchFundPortfolio_success (cache : PortfolioCache) (now : ℤ)
    (nowStr : String) (mfapiData : Option MFAPIInfo) (w : ScraperWorlds)
    (isin fundName : String) (p : FundPortfolio) (k : ℕ)
    (hmiss : (getCachedPortfolio cache now isin).1 = none)
    (hrun : runScrapers SCRAPERS w isin fundName nowStr = (some p, k)) :
    fetchFundPortfolio cache now nowStr mfapiData w isin fundName
      = ⟨overlayRegistry mfapiData fundName p,
         cachePortfolio (getCachedPortfolio cache now isin).2 isin
           (overlayRegistry mfapiData fundName p) now, true, k⟩ := by
  simp only [fetchFundPortfolio]
  rw [hmiss, hrun]

/-- Reduction of fetchFundPortfolio when the cache misses and every
scraper fails. -/
theorem fetchFundPortfolio_fail (cache : PortfolioCache) (now : ℤ)
    (nowStr : String) (mfapiData : Option MFAPIInfo) (w : ScraperWorlds)
    (isin fundName : String) (k : ℕ)
    (hmiss : (getCachedPortfolio cache now isin).1 = none)
    (hrun : runScrapers SCRAPERS w isin fundName nowStr = (none, k)) :
    fetchFundPortfolio cache now nowStr mfapiData w isin fundName
      = ⟨emptyResult mfapiData isin fundName nowStr,
         (getCachedPortfolio cache now isin).2, true, k⟩ := by
  simp only [fetchFundPortfolio]
  rw [hmiss, hrun]

/-- C3.  A timed-cache get returns the most recently put value exactly
when the time since the put is within the 24-hour TTL; a get on an
expired entry returns a miss and deletes the entry (the cache keys being
unique, as JS Map guarantees); and a second resolution of the same
identifier within the TTL of a successful first resolution returns the
identical portfolio, invokes no source adapter, performs no registry
lookup, and leaves the cache unchanged. -/
theorem composition_cache_ttl_and_second_resolution :
    (∀ (cache : PortfolioCache) (isin : String) (v : FundPortfolio) (tput tnow : ℤ),
      (getCachedPortfolio (cachePortfolio cache isin v tput) tnow isin).1
        = if tnow - tput ≤ CACHE_TTL then some v else none)
    ∧ (∀ (cache : PortfolioCache) (isin : String) (entry : CacheEntry) (tnow : ℤ),
        (cache.map Prod.fst).Nodup →
        lookupEntry cache isin = some entry →
        tnow - entry.timestamp > CACHE_TTL →
        (getCachedPortfolio cache tnow isin).1 = none
        ∧ lookupEntry (getCachedPortfolio cache tnow isin).2 isin = none)
    ∧ (∀ (cache : PortfolioCache) (t1 t2 : ℤ) (nowStr1 nowStr2 : String)
        (mfapi1 mfapi2 : Option MFAPIInfo) (w1 w2 : ScraperWorlds)
        (isin fundName : String) (p : FundPortfolio) (k : ℕ),
        (getCachedPortfolio cache t1 isin).1 = none →
        runScrapers SCRAPERS w1 isin fundName nowStr1 = (some p, k) →
        t2 - t1 ≤ CACHE_TTL →
        (fetchFundPortfolio
            (fetchFundPortfolio cache t1 nowStr1 mfapi1 w1 isin fundName).cache
            t2 nowStr2 mfapi2 w2 isin fundName).portfolio
          = (fetchFundPortfolio cache t1 nowStr1 mfapi1 w1 isin fundName).portfolio
        ∧ (fetchFundPortfolio
            (fetchFundPortfolio cache t1 nowStr1 mfapi1 w1 isin fundName).cache
            t2 nowStr2 mfapi2 w2 isin fundName).adaptersTried = 0
        ∧ (fetchFundPortfolio
            (fetchFundPortfolio cache t1 nowStr1 mfapi1 w1 isin fundName).cache
            t2 nowStr2 mfapi2 w2 isin fundName).registryCalled = false
        ∧ (fetchFundPortfolio
            (fetchFundPortfolio cache t1 nowStr1 mfapi1 w1 isin fundName).cache
            t2 nowStr2 mfapi2 w2 isin fundName).cache
          = (fetchFundPortfolio cache t1 nowStr1 mfapi1 w1 isin fundName).cache) := by
  refine ⟨?_, ?_, ?_⟩
  · intro cache isin v tput tnow
    simp only [getCachedPortfolio, cachePortfolio, lookupEntry_setKey_self]
    by_cases h : tnow - tput ≤ CACHE_TTL
    · rw [if_neg (by omega), if_pos h]
    · rw [if_pos (by omega), if_neg h]
  · intro cache isin entry tnow hnd hfind hexp
    have hred : getCachedPortfolio cache tnow isin = (none, removeKey cache isin) := by
      simp only [getCachedPortfolio, hfind, if_pos hexp]
    rw [hred]
    exact ⟨rfl, lookupEntry_removeKey_self cache isin hnd⟩
  · intro cache t1 t2 nowStr1 nowStr2 mfapi1 mfapi2 w1 w2 isin fundName p k hmiss hrun ht
    rw [fetchFundPortfolio_success cache t1 nowStr1 mfapi1 w1 isin fundName p k hmiss hrun]
    have hhit2 : (getCachedPortfolio
        (cachePortfolio (getCachedPortfolio cache t1 isin).2 isin
          (overlayRegistry mfapi1 fundName p) t1) t2 isin).1
        = some (overlayRegistry mfapi1 fundName p) := by
      simp only [getCachedPortfolio, cachePortfolio, lookupEntry_setKey_self]
      rw [if_neg (by omega)]
    have hcache2 : (getCachedPortfolio
        (cachePortfolio (getCachedPortfolio cache t1 isin).2 isin
          (overlayRegistry mfapi1 fundName p) t1) t2 isin).2
        = cachePortfolio (getCachedPortfolio cache t1 isin).2 isin
            (overlayRegistry mfapi1 fundName p) t1 := by
      simp only [getCachedPortfolio, cachePortfolio, lookupEntry_setKey_self]
      rw [if_neg (by omega)]
    rw [fetchFundPortfolio_hit _ t2 nowStr2 mfapi2 w2 isin fundName _ hhit2]
    exact ⟨rfl, rfl, rfl, hcache2⟩

/-! ## First-success lemmas for the fallback loop -/

theorem runScrapers_first_success (ss : List Scraper) (w : ScraperWorlds)
    (isin fundName nowStr : String) :
    ∀ (i : ℕ) (p : FundPortfolio),
      (∀ j, j < i → noSuccess (scraperOutcome ss w isin fundName nowStr j) = true) →
      scraperOutcome ss w isin fundName nowStr i = some p →
      p.holdings ≠ [] →
      runScrapers ss w isin fundName nowStr = (some p, i + 1) := by
  induction ss with
  | nil =>
    intro i p _ hwin
    simp [scraperOutcome] at hwin
  | cons s rest ih =>
    intro i p hprev hwin hne
    cases i with
    | zero =>
      have hs : s.fn w isin fundName nowStr = some p := by
        simpa [scraperOutcome] using hwin
      simp only [runScrapers]
      rw [hs]
      simp [hne]
    | succ i =>
      have h0 : noSuccess (s.fn w isin fundName nowStr) = true := by
        have := hprev 0 (Nat.succ_pos i)
        simpa [scraperOutcome] using this
      have hrest : runScrapers rest w isin fundName nowStr = (some p, i + 1) := by
        refine ih i p ?_ ?_ hne
        · intro j hj
          have := hprev (j + 1) (by omega)
          simpa [scraperOutcome] using this
        · simpa [scraperOutcome] using hwin
      simp only [runScrapers]
      cases hs : s.fn w isin fundName nowStr with
      | none => simp [hrest]
      | some q =>
        have hq : q.holdings = [] := by
          rw [hs] at h0
          simpa [noSuccess, List.isEmpty_iff] using h0
        simp [hq, hrest]

theorem scrapeGroww_source (d : Option GrowwData) (isin fundName nowStr : String)
    (p : FundPortfolio) (h : scrapeGroww d isin fundName nowStr = some p) :
    p.source = "Groww" := by
  cases d with
  | none => simp [scrapeGroww] at h
  | some d =>
    simp only [scrapeGroww] at h
    split at h
    · simp only [Option.some.injEq] at h
      subst h
      rfl
    · simp at h

theorem scrapeTickertape_source (d : Option TickertapeData)
    (isin fundName nowStr : String) (p : FundPortfolio)
    (h : scrapeTickertape d isin fundName nowStr = some p) :
    p.source = "Tickertape" := by
  cases d with
  | none => simp [scrapeTickertape] at h
  | some d =>
    simp only [scrapeTickertape] at h
    split at h
    · simp only [Option.some.injEq] at h
      subst h
      rfl
    · simp at h

theorem scrapeMoneycontrol_source (d : Option MoneycontrolData)
    (isin fundName nowStr : String) (p : FundPortfolio)
    (h : scrapeMoneycontrol d isin fundName nowStr = some p) :
    p.source = "Moneycontrol" := by
  cases d with
  | none => simp [scrapeMoneycontrol] at h
  | some d =>
    simp only [scrapeMoneycontrol] at h
    split at h
    · simp only [Option.some.injEq] at h
      subst h
      rfl
    · simp at h

theorem scrapeValueResearch_source (d : Option ValueResearchData)
    (isin fundName nowStr : String) (p : FundPortfolio)
    (h : scrapeValueResearch d isin fundName nowStr = some p) :
    p.source = "Value Research" := by
  cases d with
  | none => simp [scrapeValueResearch] at h
  | some d =>
    simp only [scrapeValueResearch] at h
    split at h
    · simp only [Option.some.injEq] at h
      subst h
      rfl
    · simp at h

theorem scrapeETMoney_source (d : Option ETMoneyData)
    (isin fundName nowStr : String) (p : FundPortfolio)
    (h : scrapeETMoney d isin fundName nowStr = some p) :
    p.source = "ET Money" := by
  cases d with
  | none => simp [scrapeETMoney] at h
  | some d =>
    simp only [scrapeETMoney] at h
    split at h
    · simp only [Option.some.injEq] at h
      subst h
      rfl
    · simp at h

/-- Each registered adapter stamps the fixed source label of its
position. -/
theorem scraper_stamps (w : ScraperWorlds) (isin fundName nowStr : String)
    (i : ℕ) (p : FundPortfolio)
    (h : scraperOutcome SCRAPERS w isin fundName nowStr i = some p) :
    sourceStamps[i]? = some p.source := by
  have hi : i < 5 := by
    by_contra hge
    have : SCRAPERS[i]? = none := by
      apply List.getElem?_eq_none
      simpa [SCRAPERS] using Nat.le_of_not_lt hge
    simp [scraperOutcome, this] at h
  interval_cases i
  · simp only [scraperOutcome, SCRAPERS, List.getElem?_cons_zero] at h
    rw [scrapeGroww_source _ _ _ _ _ h]
    rfl
  · simp only [scraperOutcome, SCRAPERS, List.getElem?_cons_zero,
      List.getElem?_cons_succ] at h
    rw [scrapeTickertape_source _ _ _ _ _ h]
    rfl
  · simp only [scraperOutcome, SCRAPERS, List.getElem?_cons_zero,
      List.getElem?_cons_succ] at h
    rw [scrapeMoneycontrol_source _ _ _ _ _ h]
    rfl
  · simp only [scraperOutcome, SCRAPERS, List.getElem?_cons_zero,
      List.getElem?_cons_succ] at h
    rw [scrapeValueResearch_source _ _ _ _ _ h]
    rfl
  · simp only [scraperOutcome, SCRAPERS, List.getElem?_cons_zero,
      List.getElem?_cons_succ] at h
    rw [scrapeETMoney_source _ _ _ _ _ h]
    rfl

/-- C1 (counterexample).  The claim reads the adapter label off the
declared SCRAPERS registry.  When the first four adapters fail and the
fifth wins, the fifth entry of the registry is declared ETMoney, yet the
returned source label is the adapter's own stamp ET Money, so the
returned label differs from the declared label. -/
theorem resolver_label_counterexample :
    (SCRAPERS.map Scraper.name)[4]? = some "ETMoney"
    ∧ (fetchFundPortfolio [] 0 "t1" none etWorld "I1" "F").adaptersTried = 5
    ∧ (fetchFundPortfolio [] 0 "t1" none etWorld "I1" "F").portfolio.source = "ET Money"
    ∧ (fetchFundPortfolio [] 0 "t1" none etWorld "I1" "F").portfolio.source ≠ "ETMoney" := by
  refine ⟨rfl, by decide, by decide, by decide⟩

/-- C1 (amended).  For every resolution request that misses the cache,
the resolver invokes the adapters in the declared priority order and
stops at the first adapter whose result has at least one constituent: the
returned portfolio carries that adapter's own source stamp (Groww,
Tickertape, Moneycontrol, Value Research, ET Money, by position), and the
number of adapters invoked is exactly the winner's position plus one, so
no adapter later in the order is invoked. -/
theorem resolver_first_success_wins (cache : PortfolioCache) (now : ℤ)
    (nowStr : String) (mfapiData : Option MFAPIInfo) (w : ScraperWorlds)
    (isin fundName : String) (i : ℕ) (p : FundPortfolio)
    (hmiss : (getCachedPortfolio cache now isin).1 = none)
    (hprev : ∀ j, j < i → noSuccess (scraperOutcome SCRAPERS w isin fundName nowStr j) = true)
    (hwin : scraperOutcome SCRAPERS w isin fundName nowStr i = some p)
    (hne : p.holdings ≠ []) :
    (fetchFundPortfolio cache now nowStr mfapiData w isin fundName).portfolio.source
        = p.source
    ∧ sourceStamps[i]? = some p.source
    ∧ (fetchFundPortfolio cache now nowStr mfapiData w isin fundName).adaptersTried
        = i + 1 := by
  have hrun := runScrapers_first_success SCRAPERS w isin fundName nowStr i p hprev hwin hne
  rw [fetchFundPortfolio_success cache now nowStr mfapiData w isin fundName p (i + 1)
    hmiss hrun]
  exact ⟨rfl, scraper_stamps w isin fundName nowStr i p hwin, rfl⟩

/-- Witness for the amended C1, at a request where only the fifth adapter
has data. -/
theorem resolver_first_success_witness :
    (fetchFundPortfolio [] 0 "t1" none etWorld "I1" "F").portfolio.source
        = pET.source
    ∧ sourceStamps[4]? = some pET.source
    ∧ (fetchFundPortfolio [] 0 "t1" none etWorld "I1" "F").adaptersTried = 5 :=
  resolver_first_success_wins [] 0 "t1" none etWorld "I1" "F" 4 pET
    (by decide) (by decide) (by decide) (by decide)

/-- Witness for C3: the expired-entry clause at an entry written at time
zero and read just past the TTL, and the second-resolution clause at a
first call that succeeds through the ET Money adapter. -/
theorem composition_cache_ttl_witness :
    ((getCachedPortfolio cache0 86400001 "I1").1 = none
      ∧ lookupEntry (getCachedPortfolio cache0 86400001 "I1").2 "I1" = none)
    ∧ (fetchFundPortfolio
         (fetchFundPortfolio [] 0 "t1" none etWorld "I1" "F").cache
         1 "t2" none emptyWorlds "I1" "F").portfolio
       = (fetchFundPortfolio [] 0 "t1" none etWorld "I1" "F").portfolio
    ∧ (fetchFundPortfolio
         (fetchFundPortfolio [] 0 "t1" none etWorld "I1" "F").cache
         1 "t2" none emptyWorlds "I1" "F").adaptersTried = 0 := by
  have h23 := composition_cache_ttl_and_second_resolution.2.2
    [] 0 1 "t1" "t2" none none etWorld emptyWorlds "I1" "F" pET 5
    (by decide) (by decide) (by decide)
  exact ⟨composition_cache_ttl_and_second_resolution.2.1 cache0 "I1" ⟨pf0, 0⟩ 86400001
      (by decide) (by decide) (by decide),
    h23.1, h23.2.1⟩

/-! ## C2: total-failure behaviour of the resolver -/

/-- C2 (counterexample).  A failed call is not always cache-neutral for
the identifier: when the entry for the identifier had already expired,
the lookup inside the failed call lazily deletes it, so the cache entry
for that identifier changes (from present to absent) although nothing
was written. -/
theorem resolver_failure_cache_counterexample :
    lookupEntry cache0 "I1" = some ⟨pf0, 0⟩
    ∧ (fetchFundPortfolio cache0 86400001 "t1" none emptyWorlds "I1" "F").portfolio.holdings
        = []
    ∧ lookupEntry
        (fetchFundPortfolio cache0 86400001 "t1" none emptyWorlds "I1" "F").cache "I1"
        = none := by
  refine ⟨by decide, by decide, by decide⟩

/-- C2 (amended).  fetchFundPortfolio is total and always returns a
portfolio; when the cache misses and every adapter fails, the returned
portfolio is the empty one (no constituents, sectors or asset classes)
with the fixed error description and the sentinel source label; the
negative result is not written to the cache — the cache after the call is
exactly the cache left by the initial lookup, whose only possible
mutation is the lazy eviction of an already-expired entry — and when no
entry existed for the identifier the cache is entirely unchanged. -/
theorem resolver_failure_empty_result (cache : PortfolioCache) (now : ℤ)
    (nowStr : String) (mfapiData : Option MFAPIInfo) (w : ScraperWorlds)
    (isin fundName : String) (k : ℕ)
    (hmiss : (getCachedPortfolio cache now isin).1 = none)
    (hrun : runScrapers SCRAPERS w isin fundName nowStr = (none, k)) :
    (fetchFundPortfolio cache now nowStr mfapiData w isin fundName).portfolio
      = emptyResult mfapiData isin fundName nowStr
    ∧ (emptyResult mfapiData isin fundName nowStr).holdings = []
    ∧ (emptyResult mfapiData isin fundName nowStr).sectorAllocation = []
    ∧ (emptyResult mfapiData isin fundName nowStr).assetAllocation = []
    ∧ (emptyResult mfapiData isin fundName nowStr).source = "No data available"
    ∧ (emptyResult mfapiData isin fundName nowStr).error
        = some "Failed to fetch holdings from all sources"
    ∧ (fetchFundPortfolio cache now nowStr mfapiData w isin fundName).cache
        = (getCachedPortfolio cache now isin).2
    ∧ (lookupEntry cache isin = none →
        (fetchFundPortfolio cache now nowStr mfapiData w isin fundName).cache = cache) := by
  rw [fetchFundPortfolio_fail cache now nowStr mfapiData w isin fundName k hmiss hrun]
  refine ⟨rfl, rfl, rfl, rfl, rfl, rfl, rfl, ?_⟩
  intro hnone
  simp [getCachedPortfolio, hnone]

/-- Witness for the amended C2, at an empty cache and a world where every
provider fails. -/
theorem resolver_failure_empty_witness :
    (fetchFundPortfolio [] 0 "t1" none emptyWorlds "I1" "F").portfolio
      = emptyResult none "I1" "F" "t1"
    ∧ (fetchFundPortfolio [] 0 "t1" none emptyWorlds "I1" "F").cache = [] := by
  have h := resolver_failure_empty_result [] 0 "t1" none emptyWorlds "I1" "F" 5
    (by decide) (by decide)
  exact ⟨h.1, h.2.2.2.2.2.2.2 rfl⟩

/-! ## C4: overlay preference between registry and provider -/

/-- C4 (counterexample).  When both the winning adapter and the registry
supply a category and a NAV, the returned portfolio carries the registry
values, not the provider values as the claim states. -/
theorem overlay_preference_counterexample :
    ((runScrapers SCRAPERS growwWorld "I1" "F" "t1").1.map FundPortfolio.category)
      = some (some "Prov Cat")
    ∧ (fetchFundPortfolio [] 0 "t1" (some mfapiReg) growwWorld "I1" "F").portfolio.category
      = some "Reg Cat"
    ∧ (fetchFundPortfolio [] 0 "t1" (some mfapiReg) growwWorld "I1" "F").portfolio.category
      ≠ some "Prov Cat"
    ∧ ((runScrapers SCRAPERS growwWorld "I1" "F" "t1").1.map FundPortfolio.nav)
      = some (some 20)
    ∧ (fetchFundPortfolio [] 0 "t1" (some mfapiReg) growwWorld "I1" "F").portfolio.nav
      = some 10 := by
  refine ⟨by decide, by decide, by decide, by decide, by decide⟩

/-- C4 (amended).  In the overlay step, for every field both the winning
adapter and the registry supply (with a JS-truthy registry value), the
returned portfolio carries the registry value; the provider value is used
only when the registry left the field unset or falsy; fundHouse and
navDate come from the registry alone. -/
theorem overlay_registry_preference (cache : PortfolioCache) (now : ℤ)
    (nowStr : String) (m : MFAPIInfo) (w : ScraperWorlds)
    (isin fundName : String) (p : FundPortfolio) (k : ℕ)
    (hmiss : (getCachedPortfolio cache now isin).1 = none)
    (hrun : runScrapers SCRAPERS w isin fundName nowStr = (some p, k))
    (hname : m.fundName ≠ "") (hcat : m.category ≠ "")
    (q : ℚ) (hnav : m.nav = some q) (hq : q ≠ 0) :
    (fetchFundPortfolio cache now nowStr (some m) w isin fundName).portfolio.fundName
        = m.fundName
    ∧ (fetchFundPortfolio cache now nowStr (some m) w isin fundName).portfolio.category
        = some m.category
    ∧ (fetchFundPortfolio cache now nowStr (some m) w isin fundName).portfolio.fundHouse
        = some m.fundHouse
    ∧ (fetchFundPortfolio cache now nowStr (some m) w isin fundName).portfolio.nav
        = some q
    ∧ (fetchFundPortfolio cache now nowStr (some m) w isin fundName).portfolio.navDate
        = some m.navDate := by
  rw [fetchFundPortfolio_success cache now nowStr (some m) w isin fundName p k hmiss hrun]
  refine ⟨?_, ?_, rfl, ?_, rfl⟩
  · simp [overlayRegistry, strOr, optStrOrStr, hname]
  · simp [overlayRegistry, optStrOr, hcat]
  · simp [overlayRegistry, optNumOr, hnav, hq]

/-- Witness for the amended C4, at the registry record and the Groww
world in which both sides supply category, NAV and fund name. -/
theorem overlay_registry_witness :
    (fetchFundPortfolio [] 0 "t1" (some mfapiReg) growwWorld "I1" "F").portfolio.category
        = some "Reg Cat"
    ∧ (fetchFundPortfolio [] 0 "t1" (some mfapiReg) growwWorld "I1" "F").portfolio.nav
        = some 10 := by
  have h := overlay_registry_preference [] 0 "t1" mfapiReg growwWorld "I1" "F" pGroww 1
    (by decide) (by decide) (by decide) (by decide) 10 (by decide) (by decide)
  exact ⟨h.2.1, h.2.2.2.1⟩

/-! ## C5: the batch ratio endpoint -/

theorem processStock_name (cache : PECache) (now : ℤ) (w : PEWorld) (n : String) :
    (processStock cache now w n).name = n := by
  cases h : getCachedPE cache now n <;> simp [processStock, h]

/-- C5.  For every POST to the ratio batch endpoint, at most the first
ten names are processed (provider calls happen only for processed names),
the results array has exactly one entry per processed name carrying that
name, and a name whose lookup failed (cache miss and both providers
empty) yields an entry with the ratio, capitalization-band and ticker
fields absent — each entry independent, never an all-or-nothing
failure. -/
theorem pe_batch_cap_and_partial_failure (cache : PECache) (now : ℤ)
    (w : PEWorld) (stocks : List String) :
    (peBatchPOST cache now w stocks).1.length = min stocks.length 10
    ∧ (∀ i : ℕ, i < (peBatchPOST cache now w stocks).1.length →
        ((peBatchPOST cache now w stocks).1[i]?.map PEResult.name) = stocks[i]?)
    ∧ (∀ n, n ∈ (peBatchPOST cache now w stocks).2 → n ∈ stocks.take 10)
    ∧ (∀ (i : ℕ) (r : PEResult), (peBatchPOST cache now w stocks).1[i]? = some r →
        getCachedPE cache now r.name = none →
        fetchStockPE w r.name = {} →
        r.pe = none ∧ r.marketCap = none ∧ r.symbol = none) := by
  refine ⟨?_, ?_, ?_, ?_⟩
  · simp [peBatchPOST, Nat.min_comm]
  · intro i hi
    simp only [peBatchPOST, List.length_map, List.length_take, lt_min_iff] at hi
    simp only [peBatchPOST, List.getElem?_map]
    cases h : (stocks.take 10)[i]? with
    | none =>
      have := List.getElem?_eq_none_iff.mp h
      simp only [List.length_take] at this
      omega
    | some n =>
      rw [List.getElem?_take, if_pos hi.1] at h
      simp [h, processStock_name]
  · intro n hn
    exact List.mem_of_mem_filter hn
  · intro i r hr hmiss hfetch
    simp only [peBatchPOST] at hr
    rw [List.getElem?_map] at hr
    cases h : (stocks.take 10)[i]? with
    | none =>
      rw [h] at hr
      exact Option.noConfusion hr
    | some n =>
      rw [h, Option.map_some', Option.some.injEq] at hr
      have hname : r.name = n := by rw [← hr]; exact processStock_name cache now w n
      rw [hname] at hmiss hfetch
      rw [← hr]
      simp [processStock, hmiss, hfetch]

/-- Witness for C5, at a fifteen-name request against an empty cache with
failing providers. -/
theorem pe_batch_cap_witness :
    (peBatchPOST [] 0 wNone
        ["n01", "n02", "n03", "n04", "n05", "n06", "n07", "n08",
         "n09", "n10", "n11", "n12", "n13", "n14", "n15"]).1.length = 10
    ∧ ((peBatchPOST [] 0 wNone
        ["n01", "n02", "n03", "n04", "n05", "n06", "n07", "n08",
         "n09", "n10", "n11", "n12", "n13", "n14", "n15"]).1[0]?.map PEResult.name)
      = some "n01" := by
  have h := pe_batch_cap_and_partial_failure [] 0 wNone
    ["n01", "n02", "n03", "n04", "n05", "n06", "n07", "n08",
     "n09", "n10", "n11", "n12", "n13", "n14", "n15"]
  refine ⟨by simpa using h.1, ?_⟩
  have h2 := h.2.1 0 (by simpa using h.1 ▸ (by norm_num : (0 : ℕ) < 10))
  simpa using h2

/-! ## C8: the fixed-income heuristic -/

/-- The chunked enrichment loop behaves like an element-wise map, and the
providers are called exactly for the non-debt names. -/
theorem enrichLoop_spec (w : PEWorld) :
    ∀ (n : ℕ) (hs : List FundHolding), hs.length ≤ n →
      enrichLoop w hs = (hs.map (enrichOne w),
        (hs.filter (fun x => ¬ isDebtInstrument x.name)).map FundHolding.name) := by
  intro n
  induction n with
  | zero =>
    intro hs h
    have hnil : hs = [] := List.eq_nil_of_length_eq_zero (Nat.le_zero.mp h)
    subst hnil
    simp [enrichLoop]
  | succ n ih =>
    intro hs h
    match hs with
    | [] => simp [enrichLoop]
    | x :: rest =>
      rw [enrichLoop]
      rw [ih ((x :: rest).drop 5)
        (by simp only [List.length_drop, List.length_cons]; simp at h; omega)]
      refine Prod.ext ?_ ?_
      · show (((x :: rest).take 5).map (enrichOne w) ++ ((x :: rest).drop 5).map (enrichOne w)) = _
        rw [← List.map_append, List.take_append_drop]
      · show ((((x :: rest).take 5).filter _).map FundHolding.name
            ++ (((x :: rest).drop 5).filter _).map FundHolding.name) = _
        rw [← List.map_append, ← List.filter_append, List.take_append_drop]

/-- C8 (counterexample).  The batch ratio endpoint applies no
fixed-income heuristic: a cache-missed government-security name is sent
to the ratio provider. -/
theorem debt_heuristic_batch_counterexample :
    isDebtInstrument "7.26% GOI 2033" = true
    ∧ (peBatchPOST [] 0 wNone ["7.26% GOI 2033"]).2 = ["7.26% GOI 2033"] := by
  refine ⟨by decide, by decide⟩

/-- C8 (amended).  In the bulk holdings-enrichment pipeline a constituent
whose name matches the fixed-income heuristic is returned unchanged and
is never sent to any ratio provider; the batch ratio endpoint applies no
such heuristic and forwards any cache-missed submitted name, including
fixed-income ones, to the provider. -/
theorem debt_heuristic_enricher_only (w : PEWorld) (holdings : List FundHolding)
    (i : ℕ) (hd : FundHolding)
    (hidx : holdings[i]? = some hd) (hdebt : isDebtInstrument hd.name = true) :
    (enrichHoldingsWithPE w holdings).1[i]? = some hd
    ∧ hd.name ∉ (enrichHoldingsWithPE w holdings).2
    ∧ (∀ (cache : PECache) (now : ℤ) (stocks : List String),
        hd.name ∈ stocks.take 10 →
        getCachedPE cache now hd.name = none →
        hd.name ∈ (peBatchPOST cache now w stocks).2) := by
  rw [enrichHoldingsWithPE, enrichLoop_spec w holdings.length holdings le_rfl]
  refine ⟨?_, ?_, ?_⟩
  · rw [List.getElem?_map, hidx, Option.map_some']
    have : enrichOne w hd = hd := by simp [enrichOne, hdebt]
    rw [this]
  · intro hmem
    simp only [List.mem_map, List.mem_filter] at hmem
    obtain ⟨x, ⟨_, hx⟩, hxname⟩ := hmem
    rw [hxname, hdebt] at hx
    simp at hx
  · intro cache now stocks hmem hmiss
    simp only [peBatchPOST, List.mem_filter]
    exact ⟨hmem, by simp [hmiss]⟩

/-- Witness for the amended C8, at a single government-security
constituent. -/
theorem debt_heuristic_enricher_witness :
    (enrichHoldingsWithPE wNone [goiHolding]).1[0]? = some goiHolding
    ∧ goiHolding.name ∉ (enrichHoldingsWithPE wNone [goiHolding]).2
    ∧ goiHolding.name ∈ (peBatchPOST [] 0 wNone [goiHolding.name]).2 := by
  have h := debt_heuristic_enricher_only wNone [goiHolding] 0 goiHolding
    (by decide) (by decide)
  exact ⟨h.1, h.2.1, h.2.2 [] 0 [goiHolding.name] (by decide) (by decide)⟩

/-! ## C9: single-flight of the visibility scheduler -/

theorem schedInv_step (s : SchedState) (ev : SchedEv) (h : schedInv s) :
    schedInv (stepSched s ev).1 := by
  cases ev with
  | visible i =>
    simp only [stepSched]
    split
    · exact h
    · exact h
  | enable => exact h
  | fire =>
    by_cases hf : s.isFetching
    · simp only [stepSched, if_pos hf]
      exact h
    · have h0 : s.outstanding = 0 := by
        rw [schedInv] at h
        rwa [if_neg hf] at h
      simp only [stepSched, if_neg hf]
      split
      · exact h
      · split
        · exact h
        · simp [schedInv, h0]
  | completeOk f =>
    by_cases h0 : s.outstanding = 0
    · simp only [stepSched, if_pos h0]
      exact h
    · have h1 : s.outstanding = 1 := by
        rw [schedInv] at h
        by_cases hf : s.isFetching
        · rwa [if_pos hf] at h
        · rw [if_neg hf] at h
          exact absurd h h0
      simp only [stepSched, if_neg h0]
      simp [schedInv, h1]
  | completeErr =>
    by_cases h0 : s.outstanding = 0
    · simp only [stepSched, if_pos h0]
      exact h
    · have h1 : s.outstanding = 1 := by
        rw [schedInv] at h
        by_cases hf : s.isFetching
        · rwa [if_pos hf] at h
        · rw [if_neg hf] at h
          exact absurd h h0
      simp only [stepSched, if_neg h0]
      simp [schedInv, h1]

theorem sched_reachable_inv (s : SchedState) (h : SchedReachable s) : schedInv s := by
  induction h with
  | init enabled n hasPE => rfl
  | step ev _ ih => exact schedInv_step _ ev ih

/-- C9.  In every reachable state of a holding-detail view at most one
batch call is outstanding; a row becoming visible while a call is in
flight issues no call and changes nothing but the pending set; and a call
is issued only by a processBatch run (debounce or follow-up timer) in a
state with no call in flight. -/
theorem scheduler_single_flight (s : SchedState) (hs : SchedReachable s) :
    s.outstanding ≤ 1
    ∧ (∀ i : ℕ, s.isFetching = true →
        (stepSched s (SchedEv.visible i)).2 = false
        ∧ ∃ p, (stepSched s (SchedEv.visible i)).1 = { s with pending := p })
    ∧ (∀ ev : SchedEv, (stepSched s ev).2 = true →
        ev = SchedEv.fire ∧ s.isFetching = false) := by
  have hinv := sched_reachable_inv s hs
  refine ⟨?_, ?_, ?_⟩
  · rw [schedInv] at hinv
    rw [hinv]
    split <;> omega
  · intro i _
    simp only [stepSched]
    split
    · exact ⟨rfl, ⟨s.pending, rfl⟩⟩
    · exact ⟨rfl, ⟨addIdx i s.pending, rfl⟩⟩
  · intro ev hev
    cases ev with
    | visible i =>
      revert hev
      simp only [stepSched]
      split <;> simp
    | enable => simp [stepSched] at hev
    | completeOk f =>
      revert hev
      simp only [stepSched]
      split <;> simp
    | completeErr =>
      revert hev
      simp only [stepSched]
      split <;> simp
    | fire =>
      refine ⟨rfl, ?_⟩
      by_cases hf : s.isFetching = true
      · rw [stepSched] at hev
        rw [if_pos hf] at hev
        exact absurd hev (by simp)
      · simpa using hf

/-- Witness for C9 at a concrete reachable state. -/
theorem scheduler_single_flight_witness :
    (⟨[], [], [], [], false, 0, true, 5, fun _ => false⟩ : SchedState).outstanding ≤ 1 :=
  (scheduler_single_flight _ (SchedReachable.init true 5 (fun _ => false))).1

/-! ## C10: consolidation by fund display name -/

theorem findC_addRow (m : List ConsolidatedFund) (r : MFRow) (f : String) :
    findC (addRow m r) f =
      if r.fund = f then
        match findC m f with
        | some c => some { c with totalValue := c.totalValue + rowValue r }
        | none => some ⟨r.tradingsymbol, r.fund, rowValue r⟩
      else findC m f := by
  induction m with
  | nil =>
    by_cases h : r.fund = f <;> simp [addRow, findC, h]
  | cons c rest ih =>
    by_cases hcr : c.fund = r.fund
    · by_cases hcf : c.fund = f
      · have hrf : r.fund = f := hcr ▸ hcf
        simp [addRow, findC, hcr, hcf, hrf]
      · have hrf : ¬ r.fund = f := fun hh => hcf (hcr.trans hh)
        simp [addRow, findC, hcr, hcf, hrf]
    · by_cases hcf : c.fund = f
      · have hrf : ¬ r.fund = f := fun hh => hcr (hcf.trans hh.symm)
        have hfr : ¬ f = r.fund := fun hh => hrf hh.symm
        simp [addRow, findC, hcr, hcf, hrf, hfr]
      · simp [addRow, findC, hcr, hcf, ih]

theorem sumFundValue_cons (r : MFRow) (rest : List MFRow) (f : String) :
    sumFundValue (r :: rest) f
      = (if r.fund = f then rowValue r else 0) + sumFundValue rest f := by
  by_cases h : r.fund = f <;> simp [sumFundValue, List.filter_cons, h]

theorem findC_foldl_addRow (f : String) :
    ∀ (rows : List MFRow) (m : List ConsolidatedFund),
      findC (rows.foldl addRow m) f =
        match findC m f with
        | some c => some { c with totalValue := c.totalValue + sumFundValue rows f }
        | none =>
          match rows.find? (fun r => r.fund = f) with
          | some rf => some ⟨rf.tradingsymbol, rf.fund, sumFundValue rows f⟩
          | none => none := by
  intro rows
  induction rows with
  | nil =>
    intro m
    cases h : findC m f with
    | none => simp [sumFundValue, h]
    | some c => simp [sumFundValue, h]
  | cons r rest ih =>
    intro m
    simp only [List.foldl_cons]
    rw [ih (addRow m r), findC_addRow]
    by_cases hrf : r.fund = f
    · rw [if_pos hrf]
      cases h : findC m f with
      | some c =>
        simp only [h, sumFundValue_cons, if_pos hrf]
        have : c.totalValue + rowValue r + sumFundValue rest f
            = c.totalValue + (rowValue r + sumFundValue rest f) := by ring
        rw [this]
      | none =>
        have hfind : (r :: rest).find? (fun r => r.fund = f) = some r := by
          simp [List.find?_cons, hrf]
        simp only [h, hfind, sumFundValue_cons, if_pos hrf]
    · rw [if_neg hrf]
      have hfind : (r :: rest).find? (fun x => x.fund = f)
          = rest.find? (fun x => x.fund = f) := by
        simp [List.find?_cons, hrf]
      cases h : findC m f with
      | some c => simp only [h, sumFundValue_cons, if_neg hrf, zero_add]
      | none => simp only [h, hfind, sumFundValue_cons, if_neg hrf, zero_add]

theorem totalPortfolioValue_foldl (rows : List MFRow) :
    ∀ t : ℚ, rows.foldl (fun t r => t + rowValue r) t = t + (rows.map rowValue).sum := by
  induction rows with
  | nil => intro t; simp
  | cons r rest ih =>
    intro t
    simp only [List.foldl_cons, List.map_cons, List.sum_cons]
    rw [ih (t + rowValue r)]
    ring

/-- C10.  The aggregation endpoint consolidates input holdings by fund
display name: the consolidated fund keeps the tradingsymbol of the first
row bearing that name (later same-named rows only add value, their
identifiers being discarded), resolution is invoked once per consolidated
fund under that stored identifier, and the reported total portfolio value
sums price times quantity over all input rows. -/
theorem aggregation_consolidates_by_fund_name (rows : List MFRow)
    (resolve : String → String → Option FundPortfolio) :
    (topHoldingsPOST resolve rows).resolveCalls
      = (consolidate rows).map (fun c => (c.tradingsymbol, c.fund))
    ∧ (topHoldingsPOST resolve rows).totalPortfolioValue = (rows.map rowValue).sum
    ∧ (∀ r0 ∈ rows, ∃ rf, rows.find? (fun r => r.fund = r0.fund) = some rf
        ∧ findC (consolidate rows) r0.fund
          = some ⟨rf.tradingsymbol, r0.fund, sumFundValue rows r0.fund⟩) := by
  refine ⟨rfl, ?_, ?_⟩
  · show totalPortfolioValue rows = _
    rw [totalPortfolioValue, totalPortfolioValue_foldl rows 0, zero_add]
  · intro r0 hr0
    have hsome : (rows.find? (fun r => r.fund = r0.fund)).isSome := by
      rw [List.find?_isSome]
      exact ⟨r0, hr0, by simp⟩
    obtain ⟨rf, hrf⟩ := Option.isSome_iff_exists.mp hsome
    refine ⟨rf, hrf, ?_⟩
    have hpred := List.find?_some hrf
    have hfund : rf.fund = r0.fund := by simpa using hpred
    rw [consolidate, findC_foldl_addRow r0.fund rows []]
    simp only [findC, hrf, hfund]

/-- Witness for C10, at two folios of fund F and one row of fund G. -/
theorem aggregation_consolidates_witness :
    (topHoldingsPOST (fun _ _ => none) rows10).totalPortfolioValue
      = (rows10.map rowValue).sum
    ∧ ∃ rf, rows10.find? (fun r => r.fund = (⟨"TS2", "F", 5, 4⟩ : MFRow).fund) = some rf
        ∧ findC (consolidate rows10) (⟨"TS2", "F", 5, 4⟩ : MFRow).fund
          = some ⟨rf.tradingsymbol, (⟨"TS2", "F", 5, 4⟩ : MFRow).fund,
              sumFundValue rows10 (⟨"TS2", "F", 5, 4⟩ : MFRow).fund⟩ := by
  have h := aggregation_consolidates_by_fund_name rows10 (fun _ _ => none)
  exact ⟨h.2.1, h.2.2 ⟨"TS2", "F", 5, 4⟩ (by decide)⟩

/-! ## C6: weight conservation of the aggregation -/

theorem sumTP_updateAgg_merge (key fund : String) (h : FundHolding) (hv hpp : ℚ) :
    ∀ (m : AggMap) (a : AggregatedHolding), lookupAgg m key = some a →
      sumTP (updateAgg (mergeInto fund h hv hpp) m key) = sumTP m + hpp := by
  intro m
  induction m with
  | nil =>
    intro a hfind
    simp [lookupAgg] at hfind
  | cons kv rest ih =>
    intro a hfind
    obtain ⟨k1, a1⟩ := kv
    by_cases hk : k1 = key
    · simp only [updateAgg, if_pos hk, sumTP, List.map_cons, List.sum_cons, mergeInto]
      ring
    · simp only [lookupAgg, if_neg hk] at hfind
      simp only [updateAgg, if_neg hk, sumTP, List.map_cons, List.sum_cons]
      have := ih a hfind
      simp only [sumTP] at this
      rw [this]
      ring

theorem sumTP_aggStep (fund : String) (fv fw : ℚ) (m : AggMap) (h : FundHolding) :
    sumTP (aggStep fund fv fw m h) = sumTP m + h.percentage / 100 * fw := by
  simp only [aggStep]
  cases hfind : lookupAgg m (dedupKey h.name) with
  | some a => exact sumTP_updateAgg_merge (dedupKey h.name) fund h _ _ m a hfind
  | none => simp [sumTP, freshRecord]

theorem sumTP_foldl_aggStep (fund : String) (fv fw : ℚ) :
    ∀ (hs : List FundHolding) (m : AggMap),
      sumTP (hs.foldl (aggStep fund fv fw) m)
        = sumTP m + ((hs.map FundHolding.percentage).sum) / 100 * fw := by
  intro hs
  induction hs with
  | nil => intro m; simp
  | cons h rest ih =>
    intro m
    simp only [List.foldl_cons, List.map_cons, List.sum_cons]
    rw [ih (aggStep fund fv fw m h), sumTP_aggStep]
    ring

theorem processFund_skip (resolve : String → String → Option FundPortfolio)
    (total : ℚ) (m : AggMap) (c : ConsolidatedFund)
    (hres : resolve c.tradingsymbol c.fund = none) :
    processFund resolve total m c = m := by
  simp [processFund, hres]

theorem foldl_processFund_skip (resolve : String → String → Option FundPortfolio)
    (total : ℚ) :
    ∀ (l : List ConsolidatedFund) (m : AggMap),
      (∀ c ∈ l, resolve c.tradingsymbol c.fund = none) →
      l.foldl (processFund resolve total) m = m := by
  intro l
  induction l with
  | nil => intro m _; rfl
  | cons c rest ih =>
    intro m hall
    simp only [List.foldl_cons]
    rw [processFund_skip resolve total m c (hall c (by simp))]
    exact ih m (fun c' hc' => hall c' (by simp [hc']))

theorem insertDesc_perm (x : AggregatedHolding) :
    ∀ l : List AggregatedHolding, List.Perm (insertDesc x l) (x :: l) := by
  intro l
  induction l with
  | nil => exact List.Perm.refl _
  | cons y ys ih =>
    simp only [insertDesc]
    split
    · exact List.Perm.refl _
    · exact (ih.cons y).trans (List.Perm.swap x y ys)

theorem sortDesc_perm (l : List AggregatedHolding) : List.Perm (sortDesc l) l := by
  induction l with
  | nil => exact List.Perm.refl _
  | cons x xs ih =>
    exact (insertDesc_perm x (sortDesc xs)).trans (ih.cons x)

theorem sum_map_pct (hs : List FundHolding) (c : ℚ) :
    (hs.map (fun h => h.percentage / 100 * c)).sum
      = (hs.map FundHolding.percentage).sum / 100 * c := by
  induction hs with
  | nil => simp
  | cons h rest ih =>
    simp only [List.map_cons, List.sum_cons, ih]
    ring

/-- When exactly one consolidated fund resolves, the sum of the returned
portfolio-wide weights is the fund weight scaled by the sum of the
internal constituent weights over one hundred. -/
theorem aggregation_sum_formula (rows : List MFRow)
    (resolve : String → String → Option FundPortfolio)
    (l1 l2 : List ConsolidatedFund) (F : ConsolidatedFund) (P : FundPortfolio)
    (hcons : consolidate rows = l1 ++ F :: l2)
    (h1 : ∀ c ∈ l1, resolve c.tradingsymbol c.fund = none)
    (h2 : ∀ c ∈ l2, resolve c.tradingsymbol c.fund = none)
    (hres : resolve F.tradingsymbol F.fund = some P)
    (hne : P.holdings ≠ [])
    (hpos : totalPortfolioValue rows > 0) :
    ((topHoldingsPOST resolve rows).holdings.map AggregatedHolding.totalPercentage).sum
      = (P.holdings.map FundHolding.percentage).sum / 100
          * (F.totalValue / totalPortfolioValue rows * 100) := by
  simp only [topHoldingsPOST]
  rw [((sortDesc_perm _).map AggregatedHolding.totalPercentage).sum_eq]
  rw [hcons, List.foldl_append, List.foldl_cons]
  rw [foldl_processFund_skip resolve (totalPortfolioValue rows) l1 [] h1]
  have hF : processFund resolve (totalPortfolioValue rows) [] F
      = P.holdings.foldl
          (aggStep F.fund F.totalValue (F.totalValue / totalPortfolioValue rows * 100)) [] := by
    simp only [processFund, hres, if_pos hpos]
    simp [hne]
  rw [hF]
  rw [foldl_processFund_skip resolve (totalPortfolioValue rows) l2 _ h2]
  rw [List.map_map]
  have hmm : ((P.holdings.foldl
      (aggStep F.fund F.totalValue (F.totalValue / totalPortfolioValue rows * 100)) []).map
        (AggregatedHolding.totalPercentage ∘ Prod.snd)).sum
      = sumTP (P.holdings.foldl
          (aggStep F.fund F.totalValue (F.totalValue / totalPortfolioValue rows * 100)) []) := by
    rfl
  rw [hmm, sumTP_foldl_aggStep]
  simp [sumTP]

/-- C6 (counterexample).  A single fully-consolidated holding whose
resolved composition has one constituent at forty percent internal weight
(no duplicate keys): the holding's own portfolio weight is one hundred
percent, yet the returned portfolio-wide weights sum to forty. -/
theorem aggregation_weight_counterexample :
    ((topHoldingsPOST resolve6 rows6).holdings.map AggregatedHolding.totalPercentage).sum
      = 40
    ∧ totalPortfolioValue rows6 = 100000
    ∧ findC (consolidate rows6) "F" = some ⟨"T1", "F", 100000⟩
    ∧ (100000 : ℚ) / 100000 * 100 = 100
    ∧ (40 : ℚ) ≠ 100 := by
  have htot : totalPortfolioValue rows6 = 100000 := by
    simp [totalPortfolioValue, rows6, rowValue]
    norm_num
  have hcons : consolidate rows6 = [] ++ (⟨"T1", "F", 100000⟩ : ConsolidatedFund) :: [] := by
    simp [consolidate, rows6, addRow, rowValue]
    norm_num
  have hsum := aggregation_sum_formula rows6 resolve6 [] [] ⟨"T1", "F", 100000⟩ pf6
    hcons (by simp) (by simp) rfl (by simp [pf6]) (by rw [htot]; norm_num)
  rw [htot] at hsum
  refine ⟨?_, htot, ?_, by norm_num, by norm_num⟩
  · rw [hsum]
    norm_num [pf6]
  · rw [hcons]
    simp [findC]

/-- C6 (amended).  For an aggregation request in which exactly one
consolidated fund resolves (the others yielding nothing), whose resolved
composition has no duplicate deduplication keys and whose constituent
weights sum to one hundred, the sum of the returned portfolio-wide weight
contributions equals that fund's own portfolio weight (value over total,
as a percentage), in exact rational arithmetic. -/
theorem aggregation_weight_conserving (rows : List MFRow)
    (resolve : String → String → Option FundPortfolio)
    (l1 l2 : List ConsolidatedFund) (F : ConsolidatedFund) (P : FundPortfolio)
    (hcons : consolidate rows = l1 ++ F :: l2)
    (h1 : ∀ c ∈ l1, resolve c.tradingsymbol c.fund = none)
    (h2 : ∀ c ∈ l2, resolve c.tradingsymbol c.fund = none)
    (hres : resolve F.tradingsymbol F.fund = some P)
    (hne : P.holdings ≠ [])
    (_hnodup : (P.holdings.map (fun h => dedupKey h.name)).Nodup)
    (hsum : (P.holdings.map FundHolding.percentage).sum = 100)
    (hpos : totalPortfolioValue rows > 0) :
    ((topHoldingsPOST resolve rows).holdings.map AggregatedHolding.totalPercentage).sum
      = F.totalValue / totalPortfolioValue rows * 100 := by
  rw [aggregation_sum_formula rows resolve l1 l2 F P hcons h1 h2 hres hne hpos, hsum]
  norm_num

/-- Witness for the amended C6: a 100k holding of fund F (constituents at
40 and 60 percent) next to an unresolvable 300k holding of fund G sums to
the 25-percent fund weight. -/
theorem aggregation_weight_witness :
    ((topHoldingsPOST resolveW rowsW).holdings.map AggregatedHolding.totalPercentage).sum
      = (⟨"T1", "F", 100000⟩ : ConsolidatedFund).totalValue
          / totalPortfolioValue rowsW * 100 := by
  have htot : totalPortfolioValue rowsW = 400000 := by
    simp [totalPortfolioValue, rowsW, rowValue]
    norm_num
  refine aggregation_weight_conserving rowsW resolveW []
    [⟨"T2", "G", 300000⟩] ⟨"T1", "F", 100000⟩ pf100
    ?_ (by simp) ?_ rfl (by simp [pf100]) (by decide) ?_ (by rw [htot]; norm_num)
  · simp [consolidate, rowsW, addRow, rowValue]
    norm_num
  · intro c hc
    simp only [List.mem_singleton] at hc
    subst hc
    rfl
  · simp [pf100]
    norm_num

/-! ## C7: deduplication by lower-cased trimmed name -/

/-- C7.  The Aggregation Engine merges constituents by lower-cased
trimmed name: two constituents from different holdings whose names share
the deduplication key produce a single aggregated record whose value and
portfolio-wide weight are the sums of both contributions, with one
per-holding contribution entry per contributing fund; and a contribution
from a fund that already contributed is added to its existing entry
rather than appended. -/
theorem aggregation_dedup_by_normalized_name :
    (∀ (r1 r2 : MFRow) (P1 P2 : FundPortfolio) (h1 h2 : FundHolding)
       (resolve : String → String → Option FundPortfolio),
       r1.fund ≠ r2.fund →
       resolve r1.tradingsymbol r1.fund = some P1 →
       resolve r2.tradingsymbol r2.fund = some P2 →
       P1.holdings = [h1] → P2.holdings = [h2] →
       dedupKey h2.name = dedupKey h1.name →
       totalPortfolioValue [r1, r2] > 0 →
       ∃ a : AggregatedHolding,
         (topHoldingsPOST resolve [r1, r2]).holdings = [a]
         ∧ a.name = h1.name
         ∧ a.totalValue = h1.percentage / 100 * rowValue r1
             + h2.percentage / 100 * rowValue r2
         ∧ a.totalPercentage
             = h1.percentage / 100
                 * (rowValue r1 / totalPortfolioValue [r1, r2] * 100)
               + h2.percentage / 100
                 * (rowValue r2 / totalPortfolioValue [r1, r2] * 100)
         ∧ a.funds.map FundContribution.name = [r1.fund, r2.fund]
         ∧ a.funds.map FundContribution.percentage = [h1.percentage, h2.percentage]
         ∧ a.funds.map FundContribution.value
             = [h1.percentage / 100 * rowValue r1, h2.percentage / 100 * rowValue r2])
    ∧ (∀ (r : MFRow) (P : FundPortfolio) (h1 h2 : FundHolding)
       (resolve : String → String → Option FundPortfolio),
       resolve r.tradingsymbol r.fund = some P →
       P.holdings = [h1, h2] →
       dedupKey h2.name = dedupKey h1.name →
       totalPortfolioValue [r] > 0 →
       ∃ a : AggregatedHolding,
         (topHoldingsPOST resolve [r]).holdings = [a]
         ∧ a.funds.map FundContribution.name = [r.fund]
         ∧ a.funds.map FundContribution.percentage = [h1.percentage + h2.percentage]
         ∧ a.funds.map FundContribution.value
             = [h1.percentage / 100 * rowValue r + h2.percentage / 100 * rowValue r]) := by
  constructor
  · intro r1 r2 P1 P2 h1 h2 resolve hfund hres1 hres2 hP1 hP2 hkey hpos
    have hc : consolidate [r1, r2]
        = [⟨r1.tradingsymbol, r1.fund, rowValue r1⟩,
           ⟨r2.tradingsymbol, r2.fund, rowValue r2⟩] := by
      simp [consolidate, addRow, hfund]
    have hm1 : processFund resolve (totalPortfolioValue [r1, r2]) []
        ⟨r1.tradingsymbol, r1.fund, rowValue r1⟩
        = [(dedupKey h1.name,
            freshRecord r1.fund h1 (h1.percentage / 100 * rowValue r1)
              (h1.percentage / 100
                * (rowValue r1 / totalPortfolioValue [r1, r2] * 100)))] := by
      simp [processFund, hres1, hP1, aggStep, lookupAgg, if_pos hpos]
    have hm2 : processFund resolve (totalPortfolioValue [r1, r2])
        [(dedupKey h1.name,
          freshRecord r1.fund h1 (h1.percentage / 100 * rowValue r1)
            (h1.percentage / 100
              * (rowValue r1 / totalPortfolioValue [r1, r2] * 100)))]
        ⟨r2.tradingsymbol, r2.fund, rowValue r2⟩
        = [(dedupKey h1.name,
            mergeInto r2.fund h2 (h2.percentage / 100 * rowValue r2)
              (h2.percentage / 100
                * (rowValue r2 / totalPortfolioValue [r1, r2] * 100))
              (freshRecord r1.fund h1 (h1.percentage / 100 * rowValue r1)
                (h1.percentage / 100
                  * (rowValue r1 / totalPortfolioValue [r1, r2] * 100))))] := by
      simp [processFund, hres2, hP2, aggStep, hkey, lookupAgg, updateAgg, if_pos hpos]
    refine ⟨mergeInto r2.fund h2 (h2.percentage / 100 * rowValue r2)
        (h2.percentage / 100 * (rowValue r2 / totalPortfolioValue [r1, r2] * 100))
        (freshRecord r1.fund h1 (h1.percentage / 100 * rowValue r1)
          (h1.percentage / 100 * (rowValue r1 / totalPortfolioValue [r1, r2] * 100))),
      ?_, ?_, ?_, ?_, ?_, ?_, ?_⟩
    · show sortDesc _ = _
      rw [hc]
      simp only [List.foldl_cons, List.foldl_nil]
      rw [hm1, hm2]
      simp [sortDesc, insertDesc]
    · simp [mergeInto, freshRecord]
    · simp [mergeInto, freshRecord]
    · simp [mergeInto, freshRecord]
    · simp [mergeInto, freshRecord, addFundContribution, hfund]
    · simp [mergeInto, freshRecord, addFundContribution, hfund]
    · simp [mergeInto, freshRecord, addFundContribution, hfund]
  · intro r P h1 h2 resolve hres hP hkey hpos
    have hc : consolidate [r] = [⟨r.tradingsymbol, r.fund, rowValue r⟩] := by
      simp [consolidate, addRow]
    have hm : processFund resolve (totalPortfolioValue [r]) []
        ⟨r.tradingsymbol, r.fund, rowValue r⟩
        = [(dedupKey h1.name,
            mergeInto r.fund h2 (h2.percentage / 100 * rowValue r)
              (h2.percentage / 100
                * (rowValue r / totalPortfolioValue [r] * 100))
              (freshRecord r.fund h1 (h1.percentage / 100 * rowValue r)
                (h1.percentage / 100
                  * (rowValue r / totalPortfolioValue [r] * 100))))] := by
      simp [processFund, hres, hP, aggStep, hkey, lookupAgg, updateAgg, if_pos hpos]
    refine ⟨mergeInto r.fund h2 (h2.percentage / 100 * rowValue r)
        (h2.percentage / 100 * (rowValue r / totalPortfolioValue [r] * 100))
        (freshRecord r.fund h1 (h1.percentage / 100 * rowValue r)
          (h1.percentage / 100 * (rowValue r / totalPortfolioValue [r] * 100))),
      ?_, ?_, ?_, ?_⟩
    · show sortDesc _ = _
      rw [hc]
      simp only [List.foldl_cons, List.foldl_nil]
      rw [hm]
      simp [sortDesc, insertDesc]
    · simp [mergeInto, freshRecord, addFundContribution]
    · simp [mergeInto, freshRecord, addFundContribution]
    · simp [mergeInto, freshRecord, addFundContribution]

/-- Witness for C7, at the two Acme funds and the duplicate-row fund. -/
theorem aggregation_dedup_witness :
    (∃ a : AggregatedHolding,
      (topHoldingsPOST resolveAcme [rowA, rowB]).holdings = [a]
      ∧ a.name = hAcme1.name
      ∧ a.totalValue = hAcme1.percentage / 100 * rowValue rowA
          + hAcme2.percentage / 100 * rowValue rowB
      ∧ a.totalPercentage
          = hAcme1.percentage / 100
              * (rowValue rowA / totalPortfolioValue [rowA, rowB] * 100)
            + hAcme2.percentage / 100
              * (rowValue rowB / totalPortfolioValue [rowA, rowB] * 100)
      ∧ a.funds.map FundContribution.name = [rowA.fund, rowB.fund]
      ∧ a.funds.map FundContribution.percentage
          = [hAcme1.percentage, hAcme2.percentage]
      ∧ a.funds.map FundContribution.value
          = [hAcme1.percentage / 100 * rowValue rowA,
             hAcme2.percentage / 100 * rowValue rowB])
    ∧ (∃ a : AggregatedHolding,
      (topHoldingsPOST resolveAcmeTwice [rowA]).holdings = [a]
      ∧ a.funds.map FundContribution.name = [rowA.fund]
      ∧ a.funds.map FundContribution.percentage
          = [hAcme1.percentage + hAcme2.percentage]
      ∧ a.funds.map FundContribution.value
          = [hAcme1.percentage / 100 * rowValue rowA
             + hAcme2.percentage / 100 * rowValue rowA]) := by
  constructor
  · refine aggregation_dedup_by_normalized_name.1 rowA rowB pAcme1 pAcme2 hAcme1 hAcme2
      resolveAcme (by decide) rfl rfl rfl rfl (by decide) ?_
    norm_num [totalPortfolioValue, rowA, rowB, rowValue]
  · refine aggregation_dedup_by_normalized_name.2 rowA pAcmeTwice hAcme1 hAcme2
      resolveAcmeTwice rfl rfl (by decide) ?_
    norm_num [totalPortfolioValue, rowA, rowValue]

end ZerodhaDashboard
